import Mathlib

/-!
# Verification of the open-shapefile-viewer area-classification core

Shallow embedding of the area/project data model and the operations of the
viewer:

* `src/types/layer.ts` — the feature-identifier codec (`generateFeatureId`,
  `parseFeatureId`);
* `src/renderer/src/hooks/use-areas.ts` — the renderer project-state engine
  (`addArea`, `removeArea`, `updateArea`, `addFeatureToArea`,
  `removeFeatureFromArea`, `addFeaturesToArea`);
* the area tree model (`buildAreaTree`, `parseAreaProject` validation);
* `src/lib/color-palette.ts` — the color allocator
  (`generateDistributedPalette`, `getNextAvailableColor`);
* `src/hooks/use-layers.ts` — layer-id generation
  (`generateLayerIdFromName` and the collision loop of `addLayerFromFiles`).

JavaScript numbers are modelled exactly — integers as `ℤ`/`Nat`, the
color arithmetic as explicit integer fractions evaluated in `ℚ`; all values
reached by the theorems below are far from any rounding boundary, so the
rounded 8-bit channel values agree with IEEE doubles.  Strings are Lean
`String`s; JS arrays are Lean lists; a JS `Set` used only for membership
tests is modelled as a list with list membership.
-/

namespace AreaModel

/-- `Area` from `src/types/area.ts` / the renderer `types/area` module:
`id`, `name`, `parentId` (`null` = root), `color`, `featureIds`.
(The export-only optional `featureNames` field plays no role in any claim
and is omitted.) -/
structure Area where
  id : String
  name : String
  parentId : Option String
  color : String
  featureIds : List String
deriving Repr, DecidableEq

/-- `AreaProject`: the persisted unit with metadata and the flat area list. -/
structure AreaProject where
  version : String
  name : String
  createdAt : String
  updatedAt : String
  areas : List Area
deriving Repr, DecidableEq

/-! ## Feature identity codec (`src/types/layer.ts`) -/

/-- `generateFeatureId(layerId, featureIndex)`: returns
`` `${layerId}:${featureIndex}` ``. -/
def generateFeatureId (layerId : String) (featureIndex : Nat) : String :=
  layerId ++ ":" ++ toString featureIndex

/-- The piece of `featureId.split(":")`: split on every colon, keeping empty
segments, exactly as JS `String.prototype.split` with a single-character
separator.  (Lean's own `String.splitOn ":"` has the same behaviour; a
first-principles recursion over characters is used so every proof reduces
by `decide`.) -/
def splitColonAux : List Char → List Char → List String
  | [], acc => [String.mk acc.reverse]
  | c :: rest, acc =>
    if c = ':' then String.mk acc.reverse :: splitColonAux rest []
    else splitColonAux rest (c :: acc)

/-- `s.split(":")` -/
def splitColon (s : String) : List String :=
  splitColonAux s.data []

/-- JS whitespace test for the characters `Number.parseInt` skips.
(Exotic Unicode space characters are not modelled; no theorem below feeds
them to the parser.) -/
def isJsSpace (c : Char) : Bool :=
  c = ' ' || c = '\t' || c = '\n' || c = '\r' || c = '\x0b' || c = '\x0c'

/-- Decimal digit run: `Number.parseInt` consumes the longest prefix of
decimal digits and ignores the rest of the string. -/
def takeDigits : List Char → List Char
  | [] => []
  | c :: rest => if c.isDigit then c :: takeDigits rest else []

/-- Numeric value of a list of decimal digit characters (most significant
first). -/
def digitsToNat (l : List Char) : Nat :=
  l.foldl (fun n c => 10 * n + (c.toNat - '0'.toNat)) 0

/-- `Number.parseInt(s, 10)`: skip leading whitespace, optional sign, then
the longest run of decimal digits; `NaN` (modelled as `none`) when that run
is empty.  The digit run may be followed by arbitrary garbage, which is
ignored — `parseInt("12abc", 10) = 12`, `parseInt("-5", 10) = -5`. -/
def parseIntJs (s : String) : Option Int :=
  let trimmed := s.data.dropWhile isJsSpace
  let (neg, rest) :=
    match trimmed with
    | '-' :: r => (true, r)
    | '+' :: r => (false, r)
    | r => (false, r)
  let digits := takeDigits rest
  if digits = [] then none
  else some (if neg then -(digitsToNat digits : Int) else (digitsToNat digits : Int))

/-- The decoded form `{ layerId, index }`. -/
structure FeatureRef where
  layerId : String
  index : Int
deriving Repr, DecidableEq

/-- `parseFeatureId(featureId)` from `src/types/layer.ts`:
split on `":"`; `null` unless exactly two parts; `Number.parseInt(parts[1], 10)`;
`null` when that is `NaN`; otherwise `{ layerId: parts[0], index }`. -/
def parseFeatureId (featureId : String) : Option FeatureRef :=
  match splitColon featureId with
  | [l, r] =>
    match parseIntJs r with
    | none => none
    | some i => some ⟨l, i⟩
  | _ => none

end AreaModel

namespace AreaModel

/-! ## Renderer project-state engine (`src/renderer/src/hooks/use-areas.ts`)

The engine's operations are React state updates; a call runs to completion
synchronously (§5 of the spec), so each operation is embedded as a pure
function on the state it reads and writes.  `setProject(updater)` composes
the updater onto the `project` field, `setIsDirty(b)` writes the flag. -/

/-- The ids assigned to any area: the union (with multiplicity) of all
`featureIds` lists, as collected by the `assignedIds` loop of
`addFeaturesToArea`. -/
def assignedIds (areas : List Area) : List String :=
  areas.flatMap (·.featureIds)

/-- The `setProject` updater of `addFeatureToArea(areaId, featureId)`:
if `featureId` is already in ANY area's `featureIds`, return the project
unchanged; otherwise append it to every area whose id is `areaId`. -/
def addFeatureToArea (p : AreaProject) (areaId featureId : String) : AreaProject :=
  if p.areas.any (fun a => a.featureIds.contains featureId) then p
  else
    { p with
      areas := p.areas.map (fun a =>
        if a.id = areaId then { a with featureIds := a.featureIds ++ [featureId] } else a) }

/-- The `setProject` updater of `addFeaturesToArea(areaId, featureIds)`:
collect all assigned ids, keep only the input ids not assigned anywhere,
and if any remain append them (in input order) to every area whose id is
`areaId`.  The filter tests the input ids against the *global* assigned
set only — not against each other. -/
def addFeaturesToArea (p : AreaProject) (areaId : String) (featureIds : List String) :
    AreaProject :=
  let assigned := assignedIds p.areas
  let unassigned := featureIds.filter (fun fid => !assigned.contains fid)
  if unassigned = [] then p
  else
    { p with
      areas := p.areas.map (fun a =>
        if a.id = areaId then { a with featureIds := a.featureIds ++ unassigned } else a) }

/-- The `setProject` updater of `removeFeatureFromArea(areaId, featureId)`. -/
def removeFeatureFromArea (p : AreaProject) (areaId featureId : String) : AreaProject :=
  { p with
    areas := p.areas.map (fun a =>
      if a.id = areaId then { a with featureIds := a.featureIds.filter (fun f => f ≠ featureId) }
      else a) }

/-- A partial update for `updateArea` (`Partial<Omit<Area, "id">>`):
present fields overwrite, absent fields keep the old value. -/
structure AreaUpdate where
  name : Option String
  parentId : Option (Option String)
  color : Option String
deriving Repr, DecidableEq

/-- The spread `{ ...a, ...updates }` of `updateArea`. -/
def applyAreaUpdate (a : Area) (u : AreaUpdate) : Area :=
  { a with
    name := u.name.getD a.name
    parentId := u.parentId.getD a.parentId
    color := u.color.getD a.color }

/-- The `setProject` updater of `updateArea(id, updates)`. -/
def updateArea (p : AreaProject) (id : String) (u : AreaUpdate) : AreaProject :=
  { p with areas := p.areas.map (fun a => if a.id = id then applyAreaUpdate a u else a) }

/-- `AREA_COLORS` imported by the renderer hook from its `types/area`
module (red, orange, yellow, green, teal, blue, violet, pink). -/
def AREA_COLORS : List String :=
  ["#ef4444", "#f97316", "#eab308", "#22c55e", "#14b8a6", "#3b82f6", "#8b5cf6", "#ec4899"]

/-- The area built by `addArea(name, parentId)` once a project is active:
a fresh generated id (passed in explicitly, since `generateAreaId()` reads
the clock and the RNG), the given name and parent, the color
`AREA_COLORS[project.areas.length % AREA_COLORS.length]`, and empty
`featureIds`; the new area is appended to the flat list. -/
def addArea (p : AreaProject) (genId name : String) (parentId : Option String) : AreaProject :=
  let newArea : Area :=
    { id := genId
      name := name
      parentId := parentId
      color := AREA_COLORS[p.areas.length % AREA_COLORS.length]!
      featureIds := [] }
  { p with areas := p.areas ++ [newArea] }

/-- The state owned by the renderer hook that the claims mention:
the active project (or none), the dirty flag, the selection and the last
error. -/
structure RendererState where
  project : Option AreaProject
  isDirty : Bool
  selectedAreaId : Option String
  error : Option String
deriving Repr, DecidableEq

/-- Full `addFeatureToArea` call: the `setProject` updater runs (a `null`
project stays `null`), and then `setIsDirty(true)` runs unconditionally —
it is outside the updater and is not skipped on the already-assigned
no-op path. -/
def rendererAddFeatureToArea (s : RendererState) (areaId featureId : String) : RendererState :=
  { s with
    project := s.project.map (fun p => addFeatureToArea p areaId featureId)
    isDirty := true }

/-- Full `addFeaturesToArea` call: updater plus unconditional
`setIsDirty(true)`. -/
def rendererAddFeaturesToArea (s : RendererState) (areaId : String)
    (featureIds : List String) : RendererState :=
  { s with
    project := s.project.map (fun p => addFeaturesToArea p areaId featureIds)
    isDirty := true }

/-- Full `addArea` call: `if (!project) return;` makes it a complete no-op
without a project; otherwise the new area is appended and the state is
marked dirty. -/
def rendererAddArea (s : RendererState) (genId name : String) (parentId : Option String) :
    RendererState :=
  match s.project with
  | none => s
  | some p => { s with project := some (addArea p genId name parentId), isDirty := true }

/-- Full `updateArea` call (unconditional `setIsDirty(true)`). -/
def rendererUpdateArea (s : RendererState) (id : String) (u : AreaUpdate) : RendererState :=
  { s with project := s.project.map (fun p => updateArea p id u), isDirty := true }

/-! ## Cascading delete (`removeArea`, lines 246-269 of the renderer hook)

`collectDescendants(areaId)` adds `areaId` to the `idsToRemove` set and
recurses into every area whose `parentId` equals `areaId` — with **no**
visited-set guard: the recursion descends again even into ids already
collected.  The JS recursion is therefore not structurally terminating;
it is embedded with an explicit recursion-depth budget (`fuel`), `none`
meaning the budget was exhausted — i.e. the JS call would still be
running at that depth.  The `Set` is modelled as a duplicate-free list
(`Set.add` keeps insertion order and ignores repeats). -/

def collectDescendants (areas : List Area) : Nat → List String → String → Option (List String)
  | 0, _, _ => none
  | fuel + 1, acc, areaId =>
    let acc1 := if areaId ∈ acc then acc else acc ++ [areaId]
    areas.foldlM
      (fun acc2 a =>
        if a.parentId = some areaId then collectDescendants areas fuel acc2 a.id
        else some acc2)
      acc1

/-- `removeArea(id)`: collect the id and all descendants, then filter the
flat list (parametrised by the recursion budget of the collection). -/
def removeAreaFuel (p : AreaProject) (fuel : Nat) (id : String) : Option AreaProject :=
  (collectDescendants p.areas fuel [] id).map
    (fun ids => { p with areas := p.areas.filter (fun a => !ids.contains a.id) })

end AreaModel

namespace AreaModel

/-! ## Color allocator (`src/lib/color-palette.ts`)

JS doubles are embedded as exact fractions of integers.  Mathlib's `ℚ`
does not reduce inside the kernel (its operations normalise by gcd), so
the computations use `Frac`, unreduced `ℤ`-pairs with a positive
denominator, together with an evaluation map `Frac.val : Frac → ℚ` through
which all order-theoretic reasoning is transferred.  `Math.round` is
`⌊x + 1/2⌋`, `Math.floor` is `⌊·⌋`, and binary `%` on non-negative
arguments is `a - b * ⌊a / b⌋`.  Every concrete value reached by a theorem
below is several orders of magnitude farther from a rounding boundary than
the ≈1e-16 relative error of doubles, so the produced hex strings agree
with the JS evaluation. -/

/-- An integer fraction `num / den`.  All constructions below keep
`den` positive. -/
structure Frac where
  num : ℤ
  den : ℤ
deriving Repr, DecidableEq, Inhabited

/-- Embed an integer. -/
def Frac.ofInt (n : ℤ) : Frac := ⟨n, 1⟩

/-- The rational value of a fraction. -/
def Frac.val (f : Frac) : ℚ := (f.num : ℚ) / (f.den : ℚ)

/-- The denominator-positivity invariant. -/
def Frac.Pos (f : Frac) : Prop := 0 < f.den

def fAdd (a b : Frac) : Frac := ⟨a.num * b.den + b.num * a.den, a.den * b.den⟩

def fSub (a b : Frac) : Frac := ⟨a.num * b.den - b.num * a.den, a.den * b.den⟩

def fMul (a b : Frac) : Frac := ⟨a.num * b.num, a.den * b.den⟩

/-- Division, normalising the sign so the denominator stays positive
(division by a zero value never occurs on any path exercised below). -/
def fDiv (a b : Frac) : Frac :=
  if 0 ≤ b.num then ⟨a.num * b.den, a.den * b.num⟩ else ⟨-(a.num * b.den), -(a.den * b.num)⟩

def fAbs (a : Frac) : Frac := if a.num < 0 then ⟨-a.num, a.den⟩ else a

def fLe (a b : Frac) : Bool := decide (a.num * b.den ≤ b.num * a.den)

def fLt (a b : Frac) : Bool := decide (a.num * b.den < b.num * a.den)

def fEq (a b : Frac) : Bool := decide (a.num * b.den = b.num * a.den)

/-- `Math.min` on two values. -/
def fMin (a b : Frac) : Frac := if fLe a b then a else b

/-- `Math.max` on two values. -/
def fMax (a b : Frac) : Frac := if fLe a b then b else a

/-- `Math.floor` (Euclidean division by the positive denominator). -/
def fFloor (a : Frac) : ℤ := a.num.ediv a.den

/-- `Math.round` for non-negative arguments (round half up). -/
def jsRound (q : Frac) : ℤ := fFloor (fAdd q ⟨1, 2⟩)

/-- JS `%` for non-negative operands. -/
def jsMod (a b : Frac) : Frac := fSub a (fMul b (Frac.ofInt (fFloor (fDiv a b))))

/-- One digit of `Number.prototype.toString(16)` (lowercase). -/
def hexDigitChar (n : Nat) : Char :=
  if n < 10 then Char.ofNat ('0'.toNat + n) else Char.ofNat ('a'.toNat + (n - 10))

/-- `toString(16)` restricted to one byte, plus the explicit zero-padding of
the `toHex` helper (`hex.length === 1 ? "0" + hex : hex`).  The channel
values fed in are proved to lie in `0..255`, where `toString(16)` emits one
or two lowercase hex digits. -/
def byteToHex (v : ℤ) : String :=
  let n := v.toNat
  if n < 16 then String.mk ['0', hexDigitChar n]
  else String.mk [hexDigitChar (n / 16), hexDigitChar (n % 16)]

/-- `hslToHex(h, s, l)` from `src/lib/color-palette.ts`. -/
def hslToHex (h s l : Frac) : String :=
  let s1 := fDiv s (Frac.ofInt 100)
  let l1 := fDiv l (Frac.ofInt 100)
  let c := fMul (fSub (Frac.ofInt 1) (fAbs (fSub (fMul (Frac.ofInt 2) l1) (Frac.ofInt 1)))) s1
  let x := fMul c (fSub (Frac.ofInt 1) (fAbs (fSub (jsMod (fDiv h (Frac.ofInt 60)) (Frac.ofInt 2)) (Frac.ofInt 1))))
  let m := fSub l1 (fDiv c (Frac.ofInt 2))
  let z := Frac.ofInt 0
  let rgb : Frac × Frac × Frac :=
    if fLt h (Frac.ofInt 60) then (c, x, z)
    else if fLt h (Frac.ofInt 120) then (x, c, z)
    else if fLt h (Frac.ofInt 180) then (z, c, x)
    else if fLt h (Frac.ofInt 240) then (z, x, c)
    else if fLt h (Frac.ofInt 300) then (x, z, c)
    else (c, z, x)
  "#" ++ byteToHex (jsRound (fMul (fAdd rgb.1 m) (Frac.ofInt 255)))
      ++ byteToHex (jsRound (fMul (fAdd rgb.2.1 m) (Frac.ofInt 255)))
      ++ byteToHex (jsRound (fMul (fAdd rgb.2.2 m) (Frac.ofInt 255)))

/-- Value of one hex digit, as read by `parseInt(-, 16)`.  A non-hex
character yields `NaN` in JS; the embedding returns `0` there, and every
theorem about the allocator either fixes its inputs to concrete well-formed
`#rrggbb` strings or hypothesises `validHexColor`, where the two never
differ. -/
def hexCharVal (c : Char) : Nat :=
  if '0' ≤ c ∧ c ≤ '9' then c.toNat - '0'.toNat
  else if 'a' ≤ c ∧ c ≤ 'f' then 10 + c.toNat - 'a'.toNat
  else if 'A' ≤ c ∧ c ≤ 'F' then 10 + c.toNat - 'A'.toNat
  else 0

/-- `parseInt(hex.slice(i, i+2), 16)` for the three channel slices. -/
def hexPairVal (s : String) (i : Nat) : Nat :=
  match (s.data.drop i).take 2 with
  | [c1, c2] => 16 * hexCharVal c1 + hexCharVal c2
  | _ => 0

/-- `hexToHue(hex)` from `src/lib/color-palette.ts`: standard HSL hue
extraction from `#rrggbb` (only the hue is computed). -/
def hexToHue (hex : String) : Frac :=
  let r := fDiv (Frac.ofInt (hexPairVal hex 1 : ℤ)) (Frac.ofInt 255)
  let g := fDiv (Frac.ofInt (hexPairVal hex 3 : ℤ)) (Frac.ofInt 255)
  let b := fDiv (Frac.ofInt (hexPairVal hex 5 : ℤ)) (Frac.ofInt 255)
  let maxc := fMax r (fMax g b)
  let minc := fMin r (fMin g b)
  if fEq maxc minc then Frac.ofInt 0
  else
    let d := fSub maxc minc
    if fEq maxc r then
      fMul (fAdd (fDiv (fSub g b) d) (if fLt g b then Frac.ofInt 6 else Frac.ofInt 0)) (Frac.ofInt 60)
    else if fEq maxc g then
      fMul (fAdd (fDiv (fSub b r) d) (Frac.ofInt 2)) (Frac.ofInt 60)
    else
      fMul (fAdd (fDiv (fSub r g) d) (Frac.ofInt 4)) (Frac.ofInt 60)

/-- `hueDistance(h1, h2)`: wrap-around distance on the hue circle. -/
def hueDistance (h1 h2 : Frac) : Frac :=
  fMin (fAbs (fSub h1 h2)) (fSub (Frac.ofInt 360) (fAbs (fSub h1 h2)))

/-- The reserved hues (green `#22c55e` ≈ 120, red `#ef4444` ≈ 0). -/
def RESERVED_HUES : List Frac := [Frac.ofInt 120, Frac.ofInt 0]

/-- `generateDistributedPalette(count)`: hues `0, 5, …, 355` outside a
30° buffer around each reserved hue, then every `⌊available/count⌋`-th of
them, rendered at saturation 70 / lightness 55. -/
def generateDistributedPalette (count : Nat) : List String :=
  let availableHues : List Frac :=
    ((List.range 72).map (fun k => Frac.ofInt (5 * k : ℤ))).filter
      (fun h => !(RESERVED_HUES.any (fun reserved =>
        fLt (fMin (fAbs (fSub h reserved)) (fSub (Frac.ofInt 360) (fAbs (fSub h reserved))))
          (Frac.ofInt 30))))
  let step := availableHues.length / count
  (List.range count).map (fun i =>
    hslToHex (availableHues[(i * step) % availableHues.length]!) (Frac.ofInt 70) (Frac.ofInt 55))

/-- `POLYGON_PALETTE`: the pre-generated 12-color palette. -/
def POLYGON_PALETTE : List String := generateDistributedPalette 12

/-- `Math.min(...xs)` over a non-empty list (the empty case is unreachable:
the caller returns early when `usedColors` is empty). -/
def fListMin : List Frac → Frac
  | [] => Frac.ofInt 0
  | h :: t => t.foldl fMin h

/-- Sum used for the mean hue (`usedHues.reduce((a, b) => a + b, 0)`). -/
def fListSum (l : List Frac) : Frac := l.foldl fAdd (Frac.ofInt 0)

/-- One step of the `for (const color of POLYGON_PALETTE)` loop of
`getNextAvailableColor`: skip used colors, otherwise compare the color's
minimum hue distance to the used hues against the best so far and keep the
strictly better candidate. -/
def nextColorStep (usedColors : List String) (usedHues : List Frac)
    (best : String × Frac) (color : String) : String × Frac :=
  if usedColors.contains color then best
  else
    let hue := hexToHue color
    let minDistance := fListMin (usedHues.map (fun used => hueDistance hue used))
    if fLt best.2 minDistance then (color, minDistance) else best

/-- `getNextAvailableColor(usedColors)` from `src/lib/color-palette.ts`:
empty input → first palette color; otherwise greedily pick the unused
palette color whose minimum hue distance to the used hues is largest
(strict improvement over the initial `(PALETTE[0], 0)`); if the winner is
itself used (palette exhausted — or every unused color hue-blocked), return
a fresh color at the mean used hue + 180°. -/
def getNextAvailableColor (usedColors : List String) : String :=
  if usedColors = [] then POLYGON_PALETTE[0]!
  else
    let usedHues := usedColors.map hexToHue
    let best := POLYGON_PALETTE.foldl (nextColorStep usedColors usedHues)
      (POLYGON_PALETTE[0]!, Frac.ofInt 0)
    if usedColors.contains best.1 then
      let newHue := jsMod (fAdd (fDiv (fListSum usedHues) (Frac.ofInt (usedColors.length : ℤ)))
        (Frac.ofInt 180)) (Frac.ofInt 360)
      hslToHex newHue (Frac.ofInt 70) (Frac.ofInt 55)
    else best.1

/-- A character `parseInt(-, 16)` understands. -/
def isHexDigit (c : Char) : Bool :=
  ('0' ≤ c && c ≤ '9') || ('a' ≤ c && c ≤ 'f') || ('A' ≤ c && c ≤ 'F')

/-- A valid 6-digit hex color string. -/
def validHexColor (s : String) : Bool :=
  match s.data with
  | '#' :: rest => rest.length = 6 && rest.all isHexDigit
  | _ => false

end AreaModel

namespace AreaModel

/-! ## Project JSON validation (`src/types/area.ts`, the browser module)

`JSON.parse` is the JS runtime; its *outcome* is modelled as
`Option Json` (`none` = the parse threw, caught by `parseAreaProject`).
A parsed JS value is a `Json` tree; object field access keeps the last
occurrence of a duplicated key, as `JSON.parse` does. -/

inductive Json where
  | null : Json
  | bool (b : Bool) : Json
  | num (num den : ℤ) : Json
  | str (s : String) : Json
  | arr (elems : List Json) : Json
  | obj (fields : List (String × Json)) : Json

/-- JS object field read (`undefined` = `none`; last duplicate key wins). -/
def getField (fields : List (String × Json)) (k : String) : Option Json :=
  List.lookup k fields.reverse

/-- `typeof v === "string"`. -/
def isStringJson : Json → Bool
  | .str _ => true
  | _ => false

/-- `isValidArea(data)` from `src/types/area.ts`: an object whose `id`,
`name`, `color` are strings, whose `parentId` is `null` or a string, and
whose `featureIds` is an array of strings.  (`typeof [] === "object"` in
JS, but every field access on an array yields `undefined` here, so arrays
are rejected just as in the source.) -/
def isValidArea (j : Json) : Bool :=
  match j with
  | .obj fields =>
    (match getField fields "id" with | some (.str _) => true | _ => false) &&
    (match getField fields "name" with | some (.str _) => true | _ => false) &&
    (match getField fields "parentId" with
     | some .null => true | some (.str _) => true | _ => false) &&
    (match getField fields "color" with | some (.str _) => true | _ => false) &&
    (match getField fields "featureIds" with
     | some (.arr l) => l.all isStringJson
     | _ => false)
  | _ => false

/-- `isValidAreaProject(data)` from `src/types/area.ts`. -/
def isValidAreaProject (j : Json) : Bool :=
  match j with
  | .obj fields =>
    (match getField fields "version" with | some (.str _) => true | _ => false) &&
    (match getField fields "name" with | some (.str _) => true | _ => false) &&
    (match getField fields "createdAt" with | some (.str _) => true | _ => false) &&
    (match getField fields "updatedAt" with | some (.str _) => true | _ => false) &&
    (match getField fields "areas" with
     | some (.arr l) => l.all isValidArea
     | _ => false)
  | _ => false

/-- The typed value the TS type-guard certifies: reading the declared
fields out of a JS value that passed `isValidArea` (the source returns the
same object, typed `Area`; the embedding materialises the fields). -/
def jsonToArea (j : Json) : Option Area :=
  match j with
  | .obj fields =>
    match getField fields "id", getField fields "name", getField fields "parentId",
        getField fields "color", getField fields "featureIds" with
    | some (.str id), some (.str name), some pid, some (.str color), some (.arr l) =>
      let parentId : Option (Option String) :=
        match pid with
        | .null => some none
        | .str s => some (some s)
        | _ => none
      match parentId with
      | none => none
      | some pid2 =>
        if l.all isStringJson then
          some ⟨id, name, pid2, color, l.map (fun e => match e with | .str s => s | _ => "")⟩
        else none
    | _, _, _, _, _ => none
  | _ => none

/-- The typed value certified by `isValidAreaProject`. -/
def jsonToAreaProject (j : Json) : Option AreaProject :=
  match j with
  | .obj fields =>
    match getField fields "version", getField fields "name", getField fields "createdAt",
        getField fields "updatedAt", getField fields "areas" with
    | some (.str version), some (.str name), some (.str createdAt),
        some (.str updatedAt), some (.arr l) =>
      let areas := l.map jsonToArea
      if areas.all (·.isSome) then
        some ⟨version, name, createdAt, updatedAt, areas.filterMap id⟩
      else none
    | _, _, _, _, _ => none
  | _ => none

/-- `parseAreaProject(json)` from `src/types/area.ts`, composed with the
outcome of `JSON.parse`: a parse exception (`none`) or a structurally
invalid value yields `null`; a valid value is returned typed. -/
def parseAreaProject (parsed : Option Json) : Option AreaProject :=
  match parsed with
  | none => none
  | some j => if isValidAreaProject j then jsonToAreaProject j else none

/-- The state owned by the browser project engine. -/
structure BrowserState where
  project : Option AreaProject
  isDirty : Bool
  selectedAreaId : Option String
  error : Option String
deriving Repr, DecidableEq

/-- Modelled from the spec: the browser engine's `openProject(serializedJson)`
(the hook `src/hooks/use-areas.ts` itself is absent from `src/`; only its
test and its caller `app.tsx` are present).  Spec §4.4: "parses and
validates (§4.3); on success replaces Project, clears dirty/selection; on
failure (malformed JSON, or a `name`/`areas` missing from the parsed
structure) sets an error message and leaves prior state untouched." -/
def openProject (s : BrowserState) (parsed : Option Json) : BrowserState :=
  match parseAreaProject parsed with
  | some p => { s with project := some p, isDirty := false, selectedAreaId := none }
  | none => { s with error := some "Invalid project file" }

/-! ## Tree construction (`buildAreaTree` from `src/types/area.ts`)

The source creates one mutable node per distinct id (a JS `Map` keyed by
`area.id`: position of the first occurrence, value of the last), then
pushes every node either onto `roots` or onto its parent's `children`
array.  On a `parentId` cycle the pushes create a cyclic object graph,
which no inductive tree value can represent, so the embedding keeps the
result in its graph form: the `roots` list plus the `children` adjacency
(`treeChildren`), exactly as the source builds them.  The depth-first walk
of the claim is `treeWalkIds`, reading ids off this graph with a recursion
budget (every acyclic instance is fully traversed once the budget reaches
the number of areas). -/

/-- Insertion-ordered key set of the JS `Map` (`Map.set` keeps the first
position of a key). -/
def insertKey (ks : List String) (k : String) : List String :=
  if k ∈ ks then ks else ks ++ [k]

/-- The key order of `areaMap`. -/
def mapKeys (areas : List Area) : List String :=
  areas.foldl (fun ks a => insertKey ks a.id) []

/-- The value stored for a key (`Map.set` overwrites: last area wins). -/
def lastWithId (areas : List Area) (i : String) : Option Area :=
  (areas.filter (fun a => a.id = i)).getLast?

/-- `areaMap.values()` in iteration order. -/
def mapValues (areas : List Area) : List Area :=
  (mapKeys areas).filterMap (lastWithId areas)

/-- The `children` array of the node `aid`: every map value whose
`parentId` is `aid` is pushed there (when `aid` is a live node). -/
def treeChildren (areas : List Area) (aid : String) : List Area :=
  (mapValues areas).filter (fun a => a.parentId = some aid)

/-- The `roots` array: map values with `parentId === null`, plus the
defensive case of a `parentId` that is not a key of the map. -/
def treeRoots (areas : List Area) : List Area :=
  (mapValues areas).filter (fun a =>
    match a.parentId with
    | none => true
    | some p => !(mapKeys areas).contains p)

/-- Depth-first id collection from one node of the built graph, with a
recursion budget; an exhausted budget cuts the walk below the node. -/
def walkIdsAux (areas : List Area) : Nat → Area → List String
  | 0, a => [a.id]
  | fuel + 1, a => a.id :: (treeChildren areas a.id).flatMap (walkIdsAux areas fuel)

/-- The claim's flatten: depth-first ids of `buildAreaTree(areas)`. -/
def treeWalkIds (areas : List Area) (fuel : Nat) : List String :=
  (treeRoots areas).flatMap (walkIdsAux areas fuel)

/-- The root test of `buildAreaTree` over the raw flat list: `parentId`
null, or a `parentId` that matches no area id (equal to the map-based test
of `treeRoots` whenever ids are duplicate-free). -/
def rootCond (areas : List Area) (a : Area) : Bool :=
  match a.parentId with
  | none => true
  | some p => !((areas.map (fun x => x.id)).contains p)

/-- The areas that are pushed into some parent's `children` array rather
than into `roots`. -/
def nonRoots (areas : List Area) : List Area :=
  areas.filter (fun a => !rootCond areas a)

end AreaModel

namespace AreaModel

/-! ## Layer ids (`src/hooks/use-layers.ts`) -/

/-- A character of the class `[a-z0-9_-]`. -/
def isAllowedChar (c : Char) : Bool :=
  ('a' ≤ c && c ≤ 'z') || ('0' ≤ c && c ≤ '9') || c == '_' || c == '-'

/-- `replace(/_+/g, "_")`: drop an underscore that is followed by another. -/
def collapseUnderscores : List Char → List Char
  | [] => []
  | [c] => [c]
  | c1 :: c2 :: rest =>
    if c1 == '_' && c2 == '_' then collapseUnderscores (c2 :: rest)
    else c1 :: collapseUnderscores (c2 :: rest)

/-- One leading underscore removed (the `^_` alternative of
`replace(/^_|_$/g, "")`). -/
def stripLeadingUnderscore : List Char → List Char
  | '_' :: rest => rest
  | l => l

/-- `replace(/^_|_$/g, "")`: at most one leading and one trailing
underscore are removed (after the collapse pass there can be at most one
of each). -/
def stripEdgeUnderscores (l : List Char) : List Char :=
  (stripLeadingUnderscore (stripLeadingUnderscore l).reverse).reverse

/-- `generateLayerIdFromName(name)`: lowercase, replace every character
outside `[a-z0-9_-]` by `_`, collapse underscore runs, strip edge
underscores.  (`Char.toLower` differs from the JS `toLowerCase` on some
exotic letters, but every such character is replaced by `_` on both sides,
so the result is unaffected.) -/
def generateLayerIdFromName (name : String) : String :=
  let lowered := name.data.map Char.toLower
  let replaced := lowered.map (fun c => if isAllowedChar c then c else '_')
  String.mk (stripEdgeUnderscores (collapseUnderscores replaced))

/-- The candidate sequence of the collision loop of `addLayerFromFiles`:
the base id first, then `` `${baseLayerId}_${counter}` `` for
`counter = 1, 2, …`. -/
def layerIdCandidate (base : String) : Nat → String
  | 0 => base
  | k + 1 => base ++ "_" ++ toString (k + 1)

/-- The `while (layers.some((l) => l.id === layerId))` loop, with an
explicit iteration budget (the freeness theorems fix the budget at
`ids.length + 1`, which is proved sufficient by pigeonhole). -/
def findFreeLayerIdAux (ids : List String) (base : String) : Nat → Nat → String
  | 0, k => layerIdCandidate base k
  | fuel + 1, k =>
    if ids.contains (layerIdCandidate base k) then findFreeLayerIdAux ids base fuel (k + 1)
    else layerIdCandidate base k

/-- The layer id finally assigned by `addLayerFromFiles`. -/
def findFreeLayerId (ids : List String) (base : String) : String :=
  findFreeLayerIdAux ids base (ids.length + 1) 0

/-- A loaded layer, as far as the id claims are concerned (`geojson` and
the attribute filter carry no information about ids and are omitted). -/
structure Layer where
  id : String
  name : String
  visible : Bool
  color : String
deriving Repr, DecidableEq

/-- `LAYER_COLORS` from `src/types/layer.ts`. -/
def LAYER_COLORS : List String :=
  ["#3b82f6", "#22c55e", "#f59e0b", "#ef4444", "#8b5cf6", "#06b6d4"]

/-- The layer-appending step of `addLayerFromFiles(files)` once the
shapefile decoded to a feature collection named `name`: derive the base id
from the name, bump a numeric suffix past every existing id, append the
new layer. -/
def addLayerFromFiles (layers : List Layer) (name : String) : List Layer :=
  let baseLayerId := generateLayerIdFromName name
  let layerId := findFreeLayerId (layers.map (fun l => l.id)) baseLayerId
  layers ++ [{ id := layerId
               name := name
               visible := true
               color := LAYER_COLORS[layers.length % LAYER_COLORS.length]! }]

/-- One `addLayerFromFiles` call: `none` stands for a call whose file list
did not contain a shapefile or whose decoding threw — the `catch` sets an
error and the layer list is left unchanged. -/
def addLayerOp (layers : List Layer) (input : Option String) : List Layer :=
  match input with
  | none => layers
  | some name => addLayerFromFiles layers name

end AreaModel

namespace AreaModel

/-! ## Concrete fixtures used by the theorems -/

/-- Two areas that are each other's parent — the `parentId` cycle that a
hand-edited project file can contain. -/
def cycAreaA : Area := ⟨"a", "A", some "b", "#111111", []⟩

def cycAreaB : Area := ⟨"b", "B", some "a", "#222222", []⟩

/-- A project whose two areas form a `parentId` cycle. -/
def cycProject : AreaProject := ⟨"1.0.0", "P", "2024-01-01", "2024-01-01", [cycAreaA, cycAreaB]⟩

/-- An empty project. -/
def emptyFixtureProject : AreaProject := ⟨"1.0.0", "P", "2024-01-01", "2024-01-01", []⟩

/-- A project with one area owning feature `"layer1:0"` and one empty
area. -/
def twoAreaProject : AreaProject :=
  ⟨"1.0.0", "P", "2024-01-01", "2024-01-01",
    [⟨"a1", "A", none, "#ef4444", ["layer1:0"]⟩, ⟨"a2", "B", none, "#f97316", []⟩]⟩

/-- `JSON.parse('{"name":"x"}')`: well-formed JSON missing the required
`areas` (and the other) fields. -/
def missingAreasJson : Json := Json.obj [("name", Json.str "x")]

/-- Three areas: a root, a child of the root, and an area whose parent id
matches nothing (an orphan). -/
def orphanFixtureAreas : List Area :=
  [⟨"ra", "R", none, "#111111", []⟩,
   ⟨"rb", "S", some "ra", "#222222", []⟩,
   ⟨"rc", "T", some "zzz", "#333333", []⟩]

/-- A rank certifying the orphan fixture's parent relation acyclic. -/
def orphanFixtureRank : String → Nat := fun s => if s = "rb" then 1 else 0

/-- The 15 valid hex colors of the C9 counterexample: the palette without
`"#ddc23c"`, the color `"#a18600"` (same hue as `"#ddc23c"`), and three
hue-tuning colors steering the mean used hue to `≈ 209.81°`. -/
def blockedUsedColors : List String :=
  ["#dd8c3c", "#c2dd3c", "#8cdd3c", "#3cddb4", "#3ccfdd", "#3c9add", "#3c64dd",
   "#493cdd", "#7f3cdd", "#b43cdd", "#dd3ccf", "#a18600", "#800040", "#ff0040", "#ff0020"]

end AreaModel

namespace AreaModel

/-! ## Operation sequences and invariants -/

/-- The feature-assignment operations of the engine. -/
inductive FeatureOp where
  | addOne (areaId featureId : String)
  | addMany (areaId : String) (featureIds : List String)

/-- Apply one feature-assignment operation to the active project. -/
def applyFeatureOp (p : AreaProject) : FeatureOp → AreaProject
  | .addOne aid fid => addFeatureToArea p aid fid
  | .addMany aid fids => addFeaturesToArea p aid fids

/-- Apply a call sequence left to right. -/
def applyFeatureOps (p : AreaProject) (ops : List FeatureOp) : AreaProject :=
  ops.foldl applyFeatureOp p

/-- Area ids are pairwise distinct (the data model's standing "id unique
within a Project" invariant). -/
def NodupIds (areas : List Area) : Prop := (areas.map (fun a => a.id)).Nodup

/-- No feature identifier appears in more than one area's `featureIds`
list. -/
def mutuallyExclusive (areas : List Area) : Prop :=
  areas.Pairwise (fun a b => ∀ fid ∈ a.featureIds, fid ∉ b.featureIds)

/-- Every individual area's `featureIds` list is duplicate-free. -/
def eachNodup (areas : List Area) : Prop := ∀ a ∈ areas, a.featureIds.Nodup

/-- The input list of a batch call is itself duplicate-free. -/
def opInputNodup : FeatureOp → Prop
  | .addOne _ _ => True
  | .addMany _ fids => fids.Nodup

/-- Fixture state: an active empty project, clean flags. -/
def emptyRendererState : RendererState := ⟨some emptyFixtureProject, false, none, none⟩

/-- Fixture state: `twoAreaProject` active, clean flags. -/
def twoAreaRendererState : RendererState := ⟨some twoAreaProject, false, none, none⟩

/-- Fixture browser state for the open-project claims. -/
def browserFixtureState : BrowserState := ⟨some twoAreaProject, true, some "a1", none⟩

end AreaModel

namespace AreaModel

set_option maxRecDepth 100000

/-! ## Helper lemmas -/

/-- On the cyclic fixture the descendant collection exhausts any recursion
budget: the source recursion (which has no visited-set guard) descends
`a → b → a → …` forever. -/
lemma collectDescendants_cycle_none : ∀ fuel acc,
    collectDescendants cycProject.areas fuel acc "a" = none ∧
    collectDescendants cycProject.areas fuel acc "b" = none := by
  intro fuel
  induction fuel with
  | zero => intro acc; exact ⟨rfl, rfl⟩
  | succ n ih =>
    intro acc
    constructor
    · simp +decide [collectDescendants, cycProject, cycAreaA, cycAreaB,
        List.foldlM_cons, List.foldlM_nil]
      exact (ih _).2
    · simp +decide [collectDescendants, cycProject, cycAreaA, cycAreaB,
        List.foldlM_cons, List.foldlM_nil]
      exact (ih _).1

/-- Neither feature-assignment operation touches any area id. -/
lemma ids_applyFeatureOp (p : AreaProject) (op : FeatureOp) :
    (applyFeatureOp p op).areas.map (fun a => a.id) = p.areas.map (fun a => a.id) := by
  cases op with
  | addOne aid fid =>
    simp only [applyFeatureOp, addFeatureToArea]
    split
    · rfl
    · simp only [List.map_map]
      refine List.map_congr_left ?_
      intro a _
      by_cases h : a.id = aid <;> simp [h]
  | addMany aid fids =>
    simp only [applyFeatureOp, addFeaturesToArea]
    split
    · rfl
    · simp only [List.map_map]
      refine List.map_congr_left ?_
      intro a _
      by_cases h : a.id = aid <;> simp [h]

lemma pairwise_ne_of_nodupIds {areas : List Area} (h : NodupIds areas) :
    areas.Pairwise (fun a b => a.id ≠ b.id) := by
  have h2 := h
  unfold NodupIds at h2
  rw [List.Nodup, List.pairwise_map] at h2
  exact h2

/-- When the already-assigned guard of `addFeatureToArea` falls through,
the feature id is fresh for every area. -/
lemma fresh_of_guard {areas : List Area} {fid : String}
    (h : ¬ areas.any (fun a => a.featureIds.contains fid) = true) :
    ∀ a ∈ areas, fid ∉ a.featureIds := by
  intro a ha hmem
  exact h (List.any_eq_true.mpr ⟨a, ha, by simpa using hmem⟩)

/-- Every id surviving the global-assignment filter of `addFeaturesToArea`
is fresh for every area. -/
lemma block_fresh {areas : List Area} {fids : List String} :
    ∀ x ∈ fids.filter (fun fid => !(assignedIds areas).contains fid),
      ∀ a ∈ areas, x ∉ a.featureIds := by
  intro x hx a ha hmem
  have hx' := List.mem_filter.mp hx
  simp only [Bool.not_eq_true'] at hx'
  have : x ∈ assignedIds areas := List.mem_flatMap_of_mem ha hmem
  simp [this] at hx'

lemma mutEx_addOne (p : AreaProject) (aid fid : String)
    (hid : NodupIds p.areas) (hmx : mutuallyExclusive p.areas) :
    mutuallyExclusive (addFeatureToArea p aid fid).areas := by
  unfold addFeatureToArea
  split
  · exact hmx
  case isFalse hguard =>
    have hfresh := @fresh_of_guard p.areas fid hguard
    have hcomb := hmx.and (pairwise_ne_of_nodupIds hid)
    unfold mutuallyExclusive
    simp only
    rw [List.pairwise_map]
    refine hcomb.imp_of_mem ?_
    intro a b ha hb hab
    obtain ⟨hdisj, hne⟩ := hab
    intro x hx
    by_cases haid : a.id = aid <;> by_cases hbid : b.id = aid
    · exact absurd (haid.trans hbid.symm) hne
    · simp only [haid, if_pos, hbid, if_neg, List.mem_append, List.mem_singleton] at hx ⊢
      rcases hx with hx | rfl
      · exact hdisj x hx
      · exact hfresh b hb
    · simp only [haid, hbid, if_pos, if_neg, List.mem_append, List.mem_singleton] at hx ⊢
      push_neg
      refine ⟨hdisj x hx, ?_⟩
      rintro rfl
      exact hfresh a ha hx
    · simp only [haid, hbid, if_neg] at hx ⊢
      exact hdisj x hx

lemma mutEx_addMany (p : AreaProject) (aid : String) (fids : List String)
    (hid : NodupIds p.areas) (hmx : mutuallyExclusive p.areas) :
    mutuallyExclusive (addFeaturesToArea p aid fids).areas := by
  simp only [addFeaturesToArea]
  split
  · exact hmx
  case isFalse hguard =>
    have hfresh := @block_fresh p.areas fids
    have hcomb := hmx.and (pairwise_ne_of_nodupIds hid)
    unfold mutuallyExclusive
    simp only
    rw [List.pairwise_map]
    refine hcomb.imp_of_mem ?_
    intro a b ha hb hab
    obtain ⟨hdisj, hne⟩ := hab
    intro x hx
    by_cases haid : a.id = aid <;> by_cases hbid : b.id = aid
    · exact absurd (haid.trans hbid.symm) hne
    · simp only [haid, if_pos, hbid, if_neg, List.mem_append] at hx ⊢
      rcases hx with hx | hx
      · exact hdisj x hx
      · exact hfresh x hx b hb
    · simp only [haid, hbid, if_pos, if_neg, List.mem_append] at hx ⊢
      push_neg
      exact ⟨hdisj x hx, fun hxb => hfresh x hxb a ha hx⟩
    · simp only [haid, hbid, if_neg] at hx ⊢
      exact hdisj x hx

/-- The id-uniqueness and mutual-exclusivity invariants are preserved by
every call sequence. -/
lemma good_applyFeatureOps : ∀ (ops : List FeatureOp) (p : AreaProject),
    NodupIds p.areas → mutuallyExclusive p.areas →
    NodupIds (applyFeatureOps p ops).areas ∧ mutuallyExclusive (applyFeatureOps p ops).areas := by
  intro ops
  induction ops with
  | nil => intro p h1 h2; exact ⟨h1, h2⟩
  | cons op rest ih =>
    intro p h1 h2
    have hids : NodupIds (applyFeatureOp p op).areas := by
      unfold NodupIds
      rw [ids_applyFeatureOp]
      exact h1
    have hmx : mutuallyExclusive (applyFeatureOp p op).areas := by
      cases op with
      | addOne aid fid => exact mutEx_addOne p aid fid h1 h2
      | addMany aid fids => exact mutEx_addMany p aid fids h1 h2
    exact ih (applyFeatureOp p op) hids hmx

lemma eachNodup_addOne (p : AreaProject) (aid fid : String)
    (h : eachNodup p.areas) : eachNodup (addFeatureToArea p aid fid).areas := by
  unfold addFeatureToArea
  split
  · exact h
  case isFalse hguard =>
    intro a' ha'
    simp only [List.mem_map] at ha'
    obtain ⟨a, ha, rfl⟩ := ha'
    by_cases hid : a.id = aid
    · simp only [hid, if_pos]
      have hfresh := @fresh_of_guard p.areas fid hguard a ha
      simp [List.nodup_append, h a ha, hfresh]
    · simp only [hid, if_neg]
      exact h a ha

lemma eachNodup_addMany (p : AreaProject) (aid : String) (fids : List String)
    (hin : fids.Nodup) (h : eachNodup p.areas) :
    eachNodup (addFeaturesToArea p aid fids).areas := by
  simp only [addFeaturesToArea]
  split
  · exact h
  case isFalse hguard =>
    intro a' ha'
    simp only [List.mem_map] at ha'
    obtain ⟨a, ha, rfl⟩ := ha'
    by_cases hid : a.id = aid
    · simp only [hid, if_pos]
      rw [List.nodup_append]
      refine ⟨h a ha, hin.filter _, ?_⟩
      intro x hxa hxblock
      exact block_fresh x hxblock a ha hxa
    · simp only [hid, if_neg]
      exact h a ha

/-- The per-area duplicate-freedom invariant is preserved by every call
sequence whose batch inputs are themselves duplicate-free. -/
lemma eachNodup_applyFeatureOps : ∀ (ops : List FeatureOp) (p : AreaProject),
    eachNodup p.areas → (∀ op ∈ ops, opInputNodup op) →
    eachNodup (applyFeatureOps p ops).areas := by
  intro ops
  induction ops with
  | nil => intro p h _; exact h
  | cons op rest ih =>
    intro p h hops
    have hstep : eachNodup (applyFeatureOp p op).areas := by
      cases op with
      | addOne aid fid => exact eachNodup_addOne p aid fid h
      | addMany aid fids => exact eachNodup_addMany p aid fids (hops (.addMany aid fids) (by simp)) h
    exact ih (applyFeatureOp p op) hstep (fun o ho => hops o (by simp [ho]))

/-! ## Claims C1–C6 -/

/-- C1.  Mutual exclusivity across areas: starting from a project in which
no feature identifier is assigned twice (and whose area ids are pairwise
distinct, the data model's standing invariant), every state reachable by a
sequence of `addFeatureToArea` / `addFeaturesToArea` calls keeps every
feature identifier in at most one area's `featureIds` list. -/
theorem C1_mutual_exclusivity (p : AreaProject) (ops : List FeatureOp)
    (hids : NodupIds p.areas) (hassigned : (assignedIds p.areas).Nodup) :
    mutuallyExclusive (applyFeatureOps p ops).areas := by
  have hmx : mutuallyExclusive p.areas := by
    have := (List.nodup_flatMap.mp hassigned).2
    unfold mutuallyExclusive
    refine this.imp ?_
    intro a b hdisj x hxa hxb
    exact List.disjoint_right.mp hdisj hxb hxa
  exact (good_applyFeatureOps ops p hids hmx).2

/-- C1 witness: a concrete two-area project, one single add (guarded) and
one batch add. -/
theorem C1_mutual_exclusivity_witness :
    mutuallyExclusive (applyFeatureOps twoAreaProject
      [.addOne "a2" "layer1:0", .addMany "a1" ["x", "y", "x"]]).areas :=
  C1_mutual_exclusivity twoAreaProject _ (by unfold NodupIds; decide) (by decide)

/-- C2 counterexample: a batch call whose input list repeats `"x"` appends
both occurrences to the target area, so that area's `featureIds` is not
duplicate-free — the claim, which promises duplicate-freedom even for such
inputs, is false on the code. -/
theorem C2_counterexample_duplicate_batch :
    ∃ a ∈ (addFeaturesToArea twoAreaProject "a2" ["x", "x"]).areas,
      ¬ a.featureIds.Nodup := by decide

/-- C2 (amended).  Provided every `addFeaturesToArea` input list is itself
duplicate-free, every reachable state keeps each individual area's
`featureIds` duplicate-free (the guard against the global assignment set
handles duplicates *across* calls; only duplicates *inside one* input list
are appended verbatim). -/
theorem C2_no_duplicates_within_area (p : AreaProject) (ops : List FeatureOp)
    (hinit : eachNodup p.areas) (hops : ∀ op ∈ ops, opInputNodup op) :
    eachNodup (applyFeatureOps p ops).areas :=
  eachNodup_applyFeatureOps ops p hinit hops

/-- C2 witness: the same trace as the C1 witness with the duplicate-free
batch `["x", "y"]`. -/
theorem C2_no_duplicates_within_area_witness :
    eachNodup (applyFeatureOps twoAreaProject
      [.addOne "a2" "layer1:0", .addMany "a1" ["x", "y"]]).areas :=
  C2_no_duplicates_within_area twoAreaProject _ (by unfold eachNodup; decide)
    (by simp +decide [List.forall_mem_cons, opInputNodup])

/-- C3.  The descendant collection of `removeArea` does NOT terminate on a
`parentId` cycle: on two areas that are each other's parent the recursion
(faithfully fuelled) exhausts every budget, so `removeArea` never reaches
its filtering step — the spec's termination requirement is violated by the
code (the spec itself flags that the reference recursion has no visited-set
guard and "infinite-loops on a parentId cycle"). -/
theorem C3_removeArea_cycle_diverges :
    (∀ fuel acc, collectDescendants cycProject.areas fuel acc "a" = none) ∧
    (∀ fuel, removeAreaFuel cycProject fuel "a" = none) := by
  constructor
  · intro fuel acc
    exact (collectDescendants_cycle_none fuel acc).1
  · intro fuel
    unfold removeAreaFuel
    rw [(collectDescendants_cycle_none fuel []).1]
    rfl

/-- C4 counterexample: `"layer1:0"` is already assigned (to area `a1`), the
guarded `addFeatureToArea` call leaves the area list unchanged — but
`setIsDirty(true)` sits outside the guard and still flips the dirty flag,
so the call is not the promised "complete no-op". -/
theorem C4_counterexample_dirty_flag :
    twoAreaProject.areas.any (fun a => a.featureIds.contains "layer1:0") = true ∧
    twoAreaRendererState.isDirty = false ∧
    (rendererAddFeatureToArea twoAreaRendererState "a2" "layer1:0").project =
      twoAreaRendererState.project ∧
    (rendererAddFeatureToArea twoAreaRendererState "a2" "layer1:0").isDirty = true := by
  decide

/-- C4 (amended).  For a feature id already present in some area, a
`addFeatureToArea` call leaves the area list (indeed the whole project
value) unchanged, but it DOES set the dirty flag — the renderer hook calls
`setIsDirty(true)` unconditionally, outside the already-assigned guard. -/
theorem C4_guarded_add_keeps_list_but_dirties
    (s : RendererState) (p : AreaProject) (aid fid : String)
    (hproj : s.project = some p)
    (hassigned : p.areas.any (fun a => a.featureIds.contains fid) = true) :
    (rendererAddFeatureToArea s aid fid).project = s.project ∧
    (rendererAddFeatureToArea s aid fid).isDirty = true := by
  unfold rendererAddFeatureToArea
  rw [hproj]
  refine ⟨?_, rfl⟩
  show some (addFeatureToArea p aid fid) = some p
  unfold addFeatureToArea
  rw [if_pos hassigned]

/-- C4 witness: the concrete guarded call of the counterexample. -/
theorem C4_guarded_add_witness :
    (rendererAddFeatureToArea twoAreaRendererState "a2" "layer1:0").project =
      twoAreaRendererState.project ∧
    (rendererAddFeatureToArea twoAreaRendererState "a2" "layer1:0").isDirty = true :=
  C4_guarded_add_keeps_list_but_dirties twoAreaRendererState twoAreaProject "a2" "layer1:0"
    rfl (by decide)

/-- C5 counterexample: `parseFeatureId` delegates to
`Number.parseInt(-, 10)`, which accepts a sign and ignores a non-numeric
suffix — so `"a:-5"` decodes to index `-5` and `"a:12abc"` to index `12`,
while the claim says both must decode to `null`. -/
theorem C5_counterexample_parseFeatureId :
    parseFeatureId "a:-5" = some ⟨"a", -5⟩ ∧
    parseFeatureId "a:12abc" = some ⟨"a", 12⟩ := by decide

/-- C5 (amended).  `parseFeatureId` fails exactly when splitting on `":"`
does not give two parts or `parseInt(parts[1], 10)` is `NaN`; no separator,
several separators, or a wholly non-numeric suffix all fail, but a negative
index and a numeric-prefixed suffix are accepted. -/
theorem C5_parseFeatureId_failure_conditions :
    (∀ s : String, parseFeatureId s = none ↔
      ¬ ∃ l r i, splitColon s = [l, r] ∧ parseIntJs r = some i) ∧
    parseFeatureId "a" = none ∧
    parseFeatureId "a:b:c" = none ∧
    parseFeatureId "a:xyz" = none ∧
    parseFeatureId "a:" = none ∧
    parseFeatureId "a:-5" = some ⟨"a", -5⟩ ∧
    parseFeatureId "a:12abc" = some ⟨"a", 12⟩ := by
  refine ⟨?_, by decide, by decide, by decide, by decide, by decide, by decide⟩
  intro s
  unfold parseFeatureId
  cases hs : splitColon s with
  | nil => simp
  | cons x t =>
    cases t with
    | nil => simp
    | cons y t2 =>
      cases t2 with
      | nil => cases hp : parseIntJs y <;> simp [hp]
      | cons z t3 => simp

/-- C6 (spec-modelled).  `openProject` on input whose parsed structure
fails validation — for instance the well-formed JSON `{"name":"x"}`, which
lacks `areas` — signals failure through the error channel and leaves the
active project (hence its areas and their `featureIds`), the dirty flag and
the selection untouched. -/
theorem C6_openProject_failure_atomicity :
    (∀ (s : BrowserState) (parsed : Option Json), parseAreaProject parsed = none →
      openProject s parsed = { s with error := some "Invalid project file" }) ∧
    parseAreaProject (some missingAreasJson) = none := by
  constructor
  · intro s parsed h
    unfold openProject
    rw [h]
  · rfl

/-- C6 witness: opening `{"name":"x"}` over a live project. -/
theorem C6_openProject_failure_witness :
    openProject browserFixtureState (some missingAreasJson) =
      { browserFixtureState with error := some "Invalid project file" } :=
  C6_openProject_failure_atomicity.1 browserFixtureState (some missingAreasJson)
    C6_openProject_failure_atomicity.2

/-- C8 counterexample: in a fresh empty project `addArea` does not consult
the Color Allocator at all — the first area receives `AREA_COLORS[0]`
(`"#ef4444"`, red — one of the allocator's *reserved* hues) instead of the
allocator's `POLYGON_PALETTE[0] = "#dd8c3c"`, and the second area receives
the fixed `AREA_COLORS[1] = "#f97316"`, which is not a palette color, let
alone the farthest-hue candidate. -/
theorem C8_counterexample_addArea_color :
    (rendererAddArea emptyRendererState "id1" "A" none).project =
      some { emptyFixtureProject with areas := [⟨"id1", "A", none, "#ef4444", []⟩] } ∧
    getNextAvailableColor [] = "#dd8c3c" ∧
    ("#ef4444" : String) ≠ "#dd8c3c" ∧
    (rendererAddArea (rendererAddArea emptyRendererState "id1" "A" none) "id2" "B" none).project =
      some { emptyFixtureProject with
        areas := [⟨"id1", "A", none, "#ef4444", []⟩, ⟨"id2", "B", none, "#f97316", []⟩] } ∧
    "#f97316" ∉ POLYGON_PALETTE := by decide

/-- C8 (amended).  With a project active, `addArea` appends an area whose
color is `AREA_COLORS[areas.length % AREA_COLORS.length]` — a function of
the area *count* only, independent of the existing areas' colors (second
conjunct: overriding the first area's color to anything at all, the second
area still gets `"#f97316"`); the Color Allocator plays no part. -/
theorem C8_addArea_color_index_based :
    (∀ (s : RendererState) (p : AreaProject) (genId name : String) (parentId : Option String),
      s.project = some p →
      (rendererAddArea s genId name parentId).project =
        some { p with areas := p.areas ++
          [⟨genId, name, parentId, AREA_COLORS[p.areas.length % AREA_COLORS.length]!, []⟩] } ∧
      (rendererAddArea s genId name parentId).isDirty = true) ∧
    (∀ c : String,
      ((rendererAddArea (rendererUpdateArea (rendererAddArea emptyRendererState "id1" "A" none)
          "id1" ⟨none, none, some c⟩) "id2" "B" none).project).map
        (fun p => p.areas.map (fun a => a.color)) = some [c, "#f97316"]) := by
  constructor
  · intro s p genId name parentId hproj
    unfold rendererAddArea
    rw [hproj]
    exact ⟨rfl, rfl⟩
  · intro c
    rfl

/-- C8 witness: adding a third area to the two-area fixture. -/
theorem C8_addArea_color_witness :
    (rendererAddArea twoAreaRendererState "idX" "C" none).project =
      some { twoAreaProject with areas := twoAreaProject.areas ++
        [⟨"idX", "C", none, AREA_COLORS[twoAreaProject.areas.length % AREA_COLORS.length]!, []⟩] } ∧
    (rendererAddArea twoAreaRendererState "idX" "C" none).isDirty = true :=
  C8_addArea_color_index_based.1 twoAreaRendererState twoAreaProject "idX" "C" none rfl

/-! ## Decimal representation of the collision counter -/

lemma digitsToNat_digitChar (k : Nat) (hk : k < 10) :
    (Nat.digitChar k).toNat - '0'.toNat = k := by
  interval_cases k <;> decide

lemma toDigitsCore_foldl : ∀ (fuel n : Nat) (acc : List Char) (i : Nat), n < fuel →
    (Nat.toDigitsCore 10 fuel n acc).foldl (fun m c => 10 * m + (c.toNat - '0'.toNat)) i =
      acc.foldl (fun m c => 10 * m + (c.toNat - '0'.toNat)) (i * 10 ^ (Nat.log 10 n + 1) + n) := by
  intro fuel
  induction fuel with
  | zero => intro n acc i h; exact absurd h (Nat.not_lt_zero n)
  | succ f ih =>
    intro n acc i h
    by_cases h0 : n / 10 = 0
    · have hn : n < 10 := by omega
      simp only [Nat.toDigitsCore, h0, ite_true]
      rw [List.foldl_cons, digitsToNat_digitChar (n % 10) (by omega)]
      have hlog : Nat.log 10 n = 0 := Nat.log_eq_zero_iff.mpr (Or.inl hn)
      have hmod : n % 10 = n := Nat.mod_eq_of_lt hn
      rw [hlog, hmod]
      congr 1
      ring
    · simp only [Nat.toDigitsCore, h0, ite_false]
      rw [ih (n / 10) (Nat.digitChar (n % 10) :: acc) i (by omega)]
      rw [List.foldl_cons, digitsToNat_digitChar (n % 10) (by omega)]
      congr 1
      have h10 : 10 ≤ n := by omega
      have hlog : Nat.log 10 n = Nat.log 10 (n / 10) + 1 := by
        have hd := Nat.log_div_base 10 n
        have hpos : 0 < Nat.log 10 n := Nat.log_pos (by norm_num) h10
        omega
      rw [hlog, pow_succ]
      have hdm : 10 * (n / 10) + n % 10 = n := by omega
      calc 10 * (i * 10 ^ (Nat.log 10 (n / 10) + 1) + n / 10) + n % 10
          = i * (10 ^ (Nat.log 10 (n / 10) + 1) * 10) + (10 * (n / 10) + n % 10) := by ring
        _ = i * (10 ^ (Nat.log 10 (n / 10) + 1) * 10) + n := by rw [hdm]

lemma digitsToNat_toDigits (n : Nat) : digitsToNat (Nat.toDigits 10 n) = n := by
  unfold Nat.toDigits digitsToNat
  rw [toDigitsCore_foldl (n + 1) n [] 0 (Nat.lt_succ_self n)]
  simp

lemma natRepr_injective : Function.Injective Nat.repr := by
  intro a b h
  have hdig : Nat.toDigits 10 a = Nat.toDigits 10 b := by
    unfold Nat.repr at h
    unfold List.asString at h
    exact congrArg String.data h
  have h2 := congrArg digitsToNat hdig
  rwa [digitsToNat_toDigits, digitsToNat_toDigits] at h2

lemma toDigitsCore_length_mono : ∀ (fuel n : Nat) (acc : List Char),
    acc.length ≤ (Nat.toDigitsCore 10 fuel n acc).length := by
  intro fuel
  induction fuel with
  | zero => intro n acc; simp [Nat.toDigitsCore]
  | succ f ih =>
    intro n acc
    by_cases h0 : n / 10 = 0
    · simp [Nat.toDigitsCore, h0]
    · simp only [Nat.toDigitsCore, h0, ite_false]
      calc acc.length ≤ (Nat.digitChar (n % 10) :: acc).length := by simp
        _ ≤ _ := ih (n / 10) _

lemma natRepr_length_pos (n : Nat) : 1 ≤ (Nat.repr n).length := by
  show 1 ≤ (String.mk (Nat.toDigits 10 n)).length
  show 1 ≤ (Nat.toDigits 10 n).length
  unfold Nat.toDigits
  by_cases h0 : n / 10 = 0
  · simp [Nat.toDigitsCore, h0]
  · simp only [Nat.toDigitsCore, h0, ite_false]
    have := toDigitsCore_length_mono n (n / 10) [Nat.digitChar (n % 10)]
    simpa using this

lemma layerIdCandidate_injective (base : String) :
    Function.Injective (layerIdCandidate base) := by
  have hlen : ∀ k : Nat, (layerIdCandidate base (k + 1)).length = base.length + 1 + (Nat.repr (k + 1)).length := by
    intro k
    show (base ++ "_" ++ toString (k + 1)).length = _
    simp [String.length_append]
    rfl
  intro j k h
  match j, k with
  | 0, 0 => rfl
  | 0, k + 1 =>
    exfalso
    have hl := congrArg String.length h
    rw [hlen k] at hl
    have h1 := natRepr_length_pos (k + 1)
    simp only [layerIdCandidate] at hl
    omega
  | j + 1, 0 =>
    exfalso
    have hl := congrArg String.length h
    rw [hlen j] at hl
    have h1 := natRepr_length_pos (j + 1)
    simp only [layerIdCandidate] at hl
    omega
  | j + 1, k + 1 =>
    have hdata : (base ++ ("_" ++ toString (j + 1))).data = (base ++ ("_" ++ toString (k + 1))).data := by
      have : layerIdCandidate base (j + 1) = layerIdCandidate base (k + 1) := h
      simp only [layerIdCandidate] at this
      rw [String.append_assoc, String.append_assoc] at this
      exact congrArg String.data this
    rw [String.data_append, String.data_append, String.data_append, String.data_append] at hdata
    have h3 := List.append_cancel_left hdata
    have h4 := List.append_cancel_left h3
    have hrepr : Nat.repr (j + 1) = Nat.repr (k + 1) := String.ext h4
    have := natRepr_injective hrepr
    omega

lemma exists_free_candidate (ids : List String) (base : String) :
    ∃ j, j ≤ ids.length + 1 ∧ layerIdCandidate base j ∉ ids := by
  by_contra hcon
  push_neg at hcon
  have hsub : ((List.range (ids.length + 2)).map (layerIdCandidate base)) ⊆ ids := by
    intro s hs
    obtain ⟨j, hj, rfl⟩ := List.mem_map.mp hs
    have hj2 : j ≤ ids.length + 1 := by
      have := List.mem_range.mp hj
      omega
    exact hcon j hj2
  have hnd : ((List.range (ids.length + 2)).map (layerIdCandidate base)).Nodup :=
    (List.nodup_range _).map (layerIdCandidate_injective base)
  have hle := (List.subperm_of_subset hnd hsub).length_le
  simp at hle

lemma findFreeLayerIdAux_not_mem (ids : List String) (base : String) :
    ∀ (fuel k : Nat), (∃ j, k ≤ j ∧ j ≤ k + fuel ∧ layerIdCandidate base j ∉ ids) →
      findFreeLayerIdAux ids base fuel k ∉ ids := by
  intro fuel
  induction fuel with
  | zero =>
    intro k hex
    obtain ⟨j, hj1, hj2, hj3⟩ := hex
    have : j = k := by omega
    subst this
    exact hj3
  | succ f ih =>
    intro k hex
    unfold findFreeLayerIdAux
    by_cases hc : ids.contains (layerIdCandidate base k)
    · rw [if_pos hc]
      obtain ⟨j, hj1, hj2, hj3⟩ := hex
      have hjk : j ≠ k := by
        rintro rfl
        exact hj3 (by simpa using hc)
      exact ih (k + 1) ⟨j, by omega, by omega, hj3⟩
    · rw [if_neg hc]
      simpa using hc

lemma findFreeLayerId_not_mem (ids : List String) (base : String) :
    findFreeLayerId ids base ∉ ids := by
  unfold findFreeLayerId
  obtain ⟨j, hj1, hj2⟩ := exists_free_candidate ids base
  exact findFreeLayerIdAux_not_mem ids base (ids.length + 1) 0 ⟨j, by omega, by omega, hj2⟩

lemma findFreeLayerIdAux_is_candidate (ids : List String) (base : String) :
    ∀ (fuel k : Nat), ∃ j, findFreeLayerIdAux ids base fuel k = layerIdCandidate base j := by
  intro fuel
  induction fuel with
  | zero => intro k; exact ⟨k, rfl⟩
  | succ f ih =>
    intro k
    unfold findFreeLayerIdAux
    by_cases hc : ids.contains (layerIdCandidate base k)
    · rw [if_pos hc]; exact ih (k + 1)
    · rw [if_neg hc]; exact ⟨k, rfl⟩

lemma allowed_digitChar : ∀ k : Nat, k < 10 → isAllowedChar (Nat.digitChar k) = true := by decide

lemma toDigitsCore_chars : ∀ (fuel n : Nat) (acc : List Char),
    (∀ c ∈ acc, isAllowedChar c = true) →
    ∀ c ∈ Nat.toDigitsCore 10 fuel n acc, isAllowedChar c = true := by
  intro fuel
  induction fuel with
  | zero => intro n acc hacc; simpa [Nat.toDigitsCore] using hacc
  | succ f ih =>
    intro n acc hacc
    by_cases h0 : n / 10 = 0
    · simp only [Nat.toDigitsCore, h0, ite_true]
      intro c hc
      rcases List.mem_cons.mp hc with rfl | hc2
      · exact allowed_digitChar _ (by omega)
      · exact hacc c hc2
    · simp only [Nat.toDigitsCore, h0, ite_false]
      refine ih (n / 10) _ ?_
      intro c hc
      rcases List.mem_cons.mp hc with rfl | hc2
      · exact allowed_digitChar _ (by omega)
      · exact hacc c hc2

lemma natRepr_chars (n : Nat) : ∀ c ∈ (Nat.repr n).data, isAllowedChar c = true := by
  show ∀ c ∈ Nat.toDigits 10 n, isAllowedChar c = true
  unfold Nat.toDigits
  exact toDigitsCore_chars (n + 1) n [] (by simp)

lemma collapseUnderscores_subset : ∀ (l : List Char) (c : Char),
    c ∈ collapseUnderscores l → c ∈ l := by
  intro l
  induction l with
  | nil => intro c hc; simp [collapseUnderscores] at hc
  | cons c1 rest ih =>
    intro c hc
    cases rest with
    | nil => simpa [collapseUnderscores] using hc
    | cons c2 rest2 =>
      unfold collapseUnderscores at hc
      split at hc
      · exact List.mem_cons_of_mem c1 (ih c hc)
      · rcases List.mem_cons.mp hc with rfl | hc2
        · exact List.mem_cons_self _ _
        · exact List.mem_cons_of_mem c1 (ih c hc2)

lemma stripLeadingUnderscore_subset (l : List Char) (c : Char)
    (hc : c ∈ stripLeadingUnderscore l) : c ∈ l := by
  unfold stripLeadingUnderscore at hc
  split at hc
  · exact List.mem_cons_of_mem _ hc
  · exact hc

lemma generateLayerIdFromName_chars (name : String) :
    ∀ c ∈ (generateLayerIdFromName name).data, isAllowedChar c = true := by
  intro c hc
  unfold generateLayerIdFromName at hc
  show isAllowedChar c = true
  have hc1 : c ∈ stripEdgeUnderscores (collapseUnderscores
      ((name.data.map Char.toLower).map (fun c => if isAllowedChar c then c else '_'))) := hc
  unfold stripEdgeUnderscores at hc1
  have hc2 := List.mem_reverse.mp hc1
  have hc3 := stripLeadingUnderscore_subset _ _ hc2
  have hc4 := List.mem_reverse.mp hc3
  have hc5 := stripLeadingUnderscore_subset _ _ hc4
  have hc6 := collapseUnderscores_subset _ _ hc5
  obtain ⟨c0, _, rfl⟩ := List.mem_map.mp hc6
  by_cases hallow : isAllowedChar c0
  · rw [if_pos hallow]
    exact hallow
  · rw [if_neg hallow]
    decide

lemma layerIdCandidate_chars (base : String)
    (hbase : ∀ c ∈ base.data, isAllowedChar c = true) (j : Nat) :
    ∀ c ∈ (layerIdCandidate base j).data, isAllowedChar c = true := by
  cases j with
  | zero => exact hbase
  | succ k =>
    intro c hc
    have : (layerIdCandidate base (k + 1)).data =
        base.data ++ ("_".data ++ (Nat.repr (k + 1)).data) := by
      show (base ++ "_" ++ toString (k + 1)).data = _
      rw [String.append_assoc, String.data_append, String.data_append]
      rfl
    rw [this] at hc
    rcases List.mem_append.mp hc with hc2 | hc2
    · exact hbase c hc2
    · rcases List.mem_append.mp hc2 with hc3 | hc3
      · simp only [List.mem_singleton] at hc3
        subst hc3
        decide
      · exact natRepr_chars (k + 1) c hc3

lemma good_addLayerOp (layers : List Layer) (input : Option String)
    (hnd : (layers.map (fun l => l.id)).Nodup)
    (hch : ∀ l ∈ layers, ∀ c ∈ l.id.data, isAllowedChar c = true) :
    ((addLayerOp layers input).map (fun l => l.id)).Nodup ∧
    ∀ l ∈ addLayerOp layers input, ∀ c ∈ l.id.data, isAllowedChar c = true := by
  cases input with
  | none => exact ⟨hnd, hch⟩
  | some name =>
    have hfree := findFreeLayerId_not_mem (layers.map (fun l => l.id)) (generateLayerIdFromName name)
    obtain ⟨j, hj⟩ := findFreeLayerIdAux_is_candidate (layers.map (fun l => l.id))
      (generateLayerIdFromName name) (((layers.map (fun l => l.id)).length) + 1) 0
    simp only [addLayerOp, addLayerFromFiles]
    constructor
    · rw [List.map_append, List.nodup_append]
      refine ⟨hnd, by simp, ?_⟩
      intro x hx hx2
      simp only [List.map_cons, List.map_nil, List.mem_singleton] at hx2
      subst hx2
      exact hfree hx
    · intro l hl
      rcases List.mem_append.mp hl with hl2 | hl2
      · exact hch l hl2
      · simp only [List.mem_singleton] at hl2
        subst hl2
        intro c hc
        refine layerIdCandidate_chars _ (generateLayerIdFromName_chars name) j c ?_
        rw [← hj]
        exact hc

lemma good_foldl_addLayerOp : ∀ (inputs : List (Option String)) (layers : List Layer),
    (layers.map (fun l => l.id)).Nodup →
    (∀ l ∈ layers, ∀ c ∈ l.id.data, isAllowedChar c = true) →
    ((inputs.foldl addLayerOp layers).map (fun l => l.id)).Nodup ∧
    ∀ l ∈ inputs.foldl addLayerOp layers, ∀ c ∈ l.id.data, isAllowedChar c = true := by
  intro inputs
  induction inputs with
  | nil => intro layers h1 h2; exact ⟨h1, h2⟩
  | cons input rest ih =>
    intro layers h1 h2
    have hstep := good_addLayerOp layers input h1 h2
    exact ih (addLayerOp layers input) hstep.1 hstep.2

/-- C10.  After any sequence of `addLayerFromFiles` calls (successful or
failed) starting from no layers, every loaded layer's id consists only of
characters from `[a-z0-9_-]` — in particular it never contains the `":"`
separator of the feature-identifier codec — and all layers' ids are
pairwise distinct (the collision loop appends `_1`, `_2`, … until free). -/
theorem C10_layer_id_invariant (inputs : List (Option String)) :
    ((inputs.foldl addLayerOp []).map (fun l => l.id)).Nodup ∧
    ∀ l ∈ inputs.foldl addLayerOp [], (∀ c ∈ l.id.data, isAllowedChar c = true) ∧
      ':' ∉ l.id.data := by
  have h := good_foldl_addLayerOp inputs [] (by simp) (by simp)
  refine ⟨h.1, ?_⟩
  intro l hl
  refine ⟨h.2 l hl, ?_⟩
  intro hcolon
  have := h.2 l hl ':' hcolon
  simp [isAllowedChar] at this

lemma foldl_insertKey_eq : ∀ (areas : List Area) (ks : List String),
    (∀ a ∈ areas, a.id ∉ ks) → (areas.map (fun a => a.id)).Nodup →
    areas.foldl (fun ks a => insertKey ks a.id) ks = ks ++ areas.map (fun a => a.id) := by
  intro areas
  induction areas with
  | nil => intro ks _ _; simp
  | cons a rest ih =>
    intro ks hdisj hnd
    rw [List.foldl_cons]
    have hnotin : a.id ∉ ks := hdisj a (by simp)
    rw [show insertKey ks a.id = ks ++ [a.id] from by unfold insertKey; rw [if_neg hnotin]]
    simp only [List.map_cons, List.nodup_cons] at hnd
    rw [ih (ks ++ [a.id]) ?_ hnd.2]
    · simp
    · intro b hb
      simp only [List.mem_append, List.mem_singleton]
      push_neg
      refine ⟨hdisj b (by simp [hb]), ?_⟩
      intro heq
      exact hnd.1 (heq ▸ List.mem_map_of_mem (fun a => a.id) hb)

lemma mapKeys_eq {areas : List Area} (hnd : NodupIds areas) :
    mapKeys areas = areas.map (fun a => a.id) := by
  unfold mapKeys
  rw [foldl_insertKey_eq areas [] (by simp) hnd]
  simp

lemma filter_id_eq_self {areas : List Area} (hnd : NodupIds areas) :
    ∀ a ∈ areas, areas.filter (fun b => b.id = a.id) = [a] := by
  induction areas with
  | nil => intro a ha; simp at ha
  | cons b rest ih =>
    intro a ha
    have hnd2 : NodupIds rest := by
      unfold NodupIds at hnd ⊢
      simp only [List.map_cons, List.nodup_cons] at hnd
      exact hnd.2
    have hbnotin : b.id ∉ rest.map (fun a => a.id) := by
      unfold NodupIds at hnd
      simp only [List.map_cons, List.nodup_cons] at hnd
      exact hnd.1
    rcases List.mem_cons.mp ha with rfl | ha2
    · rw [List.filter_cons_of_pos (by simp)]
      have : rest.filter (fun c => c.id = a.id) = [] := by
        rw [List.filter_eq_nil_iff]
        intro c hc
        simp only [decide_eq_true_eq]
        intro heq
        exact hbnotin (heq ▸ List.mem_map_of_mem (fun a => a.id) hc)
      rw [this]
    · have hne : ¬ (b.id = a.id) := by
        intro heq
        exact hbnotin (heq ▸ List.mem_map_of_mem (fun a => a.id) ha2)
      rw [List.filter_cons_of_neg (by simpa using hne)]
      exact ih hnd2 a ha2

lemma lastWithId_eq {areas : List Area} (hnd : NodupIds areas) :
    ∀ a ∈ areas, lastWithId areas a.id = some a := by
  intro a ha
  unfold lastWithId
  rw [filter_id_eq_self hnd a ha]
  rfl

lemma filterMap_self : ∀ (l : List Area) (f : String → Option Area),
    (∀ a ∈ l, f a.id = some a) → (l.map (fun a => a.id)).filterMap f = l := by
  intro l
  induction l with
  | nil => intro f _; simp
  | cons a rest ih =>
    intro f hf
    simp only [List.map_cons, List.filterMap_cons, hf a (by simp)]
    rw [ih f (fun b hb => hf b (by simp [hb]))]

lemma mapValues_eq {areas : List Area} (hnd : NodupIds areas) :
    mapValues areas = areas := by
  unfold mapValues
  rw [mapKeys_eq hnd]
  exact filterMap_self areas _ (lastWithId_eq hnd)

lemma nodupIds_filter {areas : List Area} (hnd : NodupIds areas) (p : Area → Bool) :
    NodupIds (areas.filter p) := by
  unfold NodupIds at hnd ⊢
  exact ((List.filter_sublist areas).map (fun a => a.id)).nodup hnd

lemma treeRoots_eq {areas : List Area} (hnd : NodupIds areas) :
    treeRoots areas = areas.filter (rootCond areas) := by
  unfold treeRoots
  rw [mapValues_eq hnd, mapKeys_eq hnd]
  rfl

lemma treeChildren_eq {areas : List Area} (hnd : NodupIds areas) (aid : String) :
    treeChildren areas aid = areas.filter (fun a => a.parentId = some aid) := by
  unfold treeChildren
  rw [mapValues_eq hnd]

lemma rootCond_false_of_child {areas : List Area} {b c : Area}
    (hc : c ∈ areas) (hp : b.parentId = some c.id) : rootCond areas b = false := by
  unfold rootCond
  rw [hp]
  simp only [Bool.not_eq_true']
  simp [List.mem_map]
  exact ⟨c, hc, rfl⟩

lemma flatMap_congr_mem {l : List α} {f g : α → List β}
    (h : ∀ x ∈ l, f x = g x) : l.flatMap f = l.flatMap g := by
  induction l with
  | nil => rfl
  | cons x rest ih =>
    simp only [List.flatMap_cons]
    rw [h x (by simp), ih (fun y hy => h y (by simp [hy]))]

lemma children_subset_nonRoots {areas : List Area} {c : Area} (hc : c ∈ areas) :
    ∀ b ∈ areas.filter (fun a => a.parentId = some c.id), b ∈ nonRoots areas := by
  intro b hb
  have hb2 := List.mem_filter.mp hb
  have hp : b.parentId = some c.id := by simpa using hb2.2
  unfold nonRoots
  refine List.mem_filter.mpr ⟨hb2.1, ?_⟩
  simp [rootCond_false_of_child hc hp]

lemma nodupIds_nonRoots {areas : List Area} (hnd : NodupIds areas) :
    NodupIds (nonRoots areas) := nodupIds_filter hnd _

lemma treeChildren_nonRoots_eq {areas : List Area} (hnd : NodupIds areas) {c : Area}
    (hc : c ∈ areas) :
    treeChildren areas c.id = treeChildren (nonRoots areas) c.id := by
  rw [treeChildren_eq hnd, treeChildren_eq (nodupIds_nonRoots hnd)]
  unfold nonRoots
  rw [List.filter_filter]
  refine (List.filter_congr ?_).symm
  intro b hb
  by_cases hp : b.parentId = some c.id
  · simp [hp, rootCond_false_of_child hc hp]
  · simp [hp]

lemma walkIdsAux_nonRoots_congr {areas : List Area} (hnd : NodupIds areas) :
    ∀ (fuel : Nat) (c : Area), c ∈ nonRoots areas →
      walkIdsAux areas fuel c = walkIdsAux (nonRoots areas) fuel c := by
  intro fuel
  induction fuel with
  | zero => intro c _; rfl
  | succ f ih =>
    intro c hcNR
    have hc : c ∈ areas := (List.mem_filter.mp hcNR).1
    simp only [walkIdsAux]
    rw [← treeChildren_nonRoots_eq hnd hc]
    congr 1
    refine flatMap_congr_mem ?_
    intro b hb
    rw [treeChildren_eq hnd] at hb
    exact ih b (children_subset_nonRoots hc b hb)

lemma id_inj {areas : List Area} (hnd : NodupIds areas) {x y : Area}
    (hx : x ∈ areas) (hy : y ∈ areas) (h : x.id = y.id) : x = y :=
  List.inj_on_of_nodup_map hnd hx hy h

lemma rootCond_true_elim {areas : List Area} {x : Area} {p : String}
    (hp : x.parentId = some p) (h : rootCond areas x = true) :
    ∀ y ∈ areas, y.id ≠ p := by
  unfold rootCond at h
  rw [hp] at h
  simp only [Bool.not_eq_true'] at h
  intro y hy heq
  have : p ∈ areas.map (fun x => x.id) := heq ▸ List.mem_map_of_mem _ hy
  simp [this] at h

lemma rootCond_false_elim {areas : List Area} {x : Area}
    (h : rootCond areas x = false) :
    ∃ p, x.parentId = some p ∧ ∃ r ∈ areas, r.id = p := by
  unfold rootCond at h
  cases hp : x.parentId with
  | none => rw [hp] at h; simp at h
  | some p =>
    rw [hp] at h
    simp only [Bool.not_eq_false] at h
    refine ⟨p, rfl, ?_⟩
    have := List.mem_map.mp (by simpa using h)
    obtain ⟨r, hr, hrp⟩ := this
    exact ⟨r, hr, hrp⟩

lemma roots_flatMap_children_perm {areas : List Area} (hnd : NodupIds areas) :
    ((areas.filter (rootCond areas)).flatMap
        (fun r => areas.filter (fun a => a.parentId = some r.id))).Perm
      ((nonRoots areas).filter (rootCond (nonRoots areas))) := by
  have hA : areas.Nodup := List.Nodup.of_map _ hnd
  have hndLHS : ((areas.filter (rootCond areas)).flatMap
      (fun r => areas.filter (fun a => a.parentId = some r.id))).Nodup := by
    rw [List.nodup_flatMap]
    constructor
    · intro r _
      exact (List.filter_sublist areas).nodup hA
    · have hrne := pairwise_ne_of_nodupIds (nodupIds_filter hnd (rootCond areas))
      refine hrne.imp ?_
      intro r1 r2 hne x hx1 hx2
      have h1 : x.parentId = some r1.id := by simpa using (List.mem_filter.mp hx1).2
      have h2 : x.parentId = some r2.id := by simpa using (List.mem_filter.mp hx2).2
      rw [h1] at h2
      exact hne (Option.some.inj h2)
  have hndRHS : ((nonRoots areas).filter (rootCond (nonRoots areas))).Nodup :=
    ((List.filter_sublist _).trans (List.filter_sublist areas)).nodup hA
  refine (List.subperm_of_subset hndLHS ?_).antisymm (List.subperm_of_subset hndRHS ?_)
  · intro x hx
    obtain ⟨r, hr, hxr⟩ := List.mem_flatMap.mp hx
    have hrmem := List.mem_filter.mp hr
    have hxmem := List.mem_filter.mp hxr
    have hxp : x.parentId = some r.id := by simpa using hxmem.2
    refine List.mem_filter.mpr ⟨?_, ?_⟩
    · exact List.mem_filter.mpr ⟨hxmem.1,
        by simp [rootCond_false_of_child hrmem.1 hxp]⟩
    · unfold rootCond
      rw [hxp]
      simp only [Bool.not_eq_true']
      rw [List.contains_eq_any_beq]
      rw [List.any_eq_false]
      intro y hy
      simp only [beq_iff_eq]
      obtain ⟨z, hz, rfl⟩ := List.mem_map.mp hy
      have hzNR := List.mem_filter.mp hz
      intro heq
      have : z = r := id_inj hnd hzNR.1 hrmem.1 heq.symm
      subst this
      have : rootCond areas z = true := hrmem.2
      simp [this] at hzNR
  · intro x hx
    have hxmem := List.mem_filter.mp hx
    have hxNR := List.mem_filter.mp hxmem.1
    have hxfalse : rootCond areas x = false := by
      have := hxNR.2
      simpa using this
    obtain ⟨p, hp, r, hr, hrp⟩ := rootCond_false_elim hxfalse
    have hrroot : rootCond areas r = true := by
      by_contra hcon
      have hrfalse : rootCond areas r = false := by
        cases h : rootCond areas r
        · rfl
        · exact absurd h hcon
      have hrNR : r ∈ nonRoots areas := List.mem_filter.mpr ⟨hr, by simp [hrfalse]⟩
      have := rootCond_true_elim hp hxmem.2 r hrNR hrp
      exact this
    refine List.mem_flatMap.mpr ⟨r, List.mem_filter.mpr ⟨hr, hrroot⟩, ?_⟩
    refine List.mem_filter.mpr ⟨hxNR.1, ?_⟩
    simp [hp, hrp]

lemma roots_ne_nil {areas : List Area} (rank : String → Nat)
    (hrank : ∀ a ∈ areas, ∀ b ∈ areas, a.parentId = some b.id → rank b.id < rank a.id)
    (hne : areas ≠ []) : areas.filter (rootCond areas) ≠ [] := by
  intro hroots
  have hall : ∀ a ∈ areas, rootCond areas a = false := by
    intro a ha
    have := List.filter_eq_nil_iff.mp hroots a ha
    cases h : rootCond areas a
    · rfl
    · exact absurd h this
  have hstep : ∀ a ∈ areas, ∃ b ∈ areas, rank b.id < rank a.id := by
    intro a ha
    obtain ⟨p, hp, r, hr, hrp⟩ := rootCond_false_elim (hall a ha)
    exact ⟨r, hr, hrank a ha r hr (by rw [hp, hrp])⟩
  have hnone : ∀ k, ∀ a ∈ areas, rank a.id ≠ k := by
    intro k
    induction k using Nat.strong_induction_on with
    | _ k ih =>
      intro a ha hk
      obtain ⟨b, hb, hlt⟩ := hstep a ha
      exact ih (rank b.id) (hk ▸ hlt) b hb rfl
  obtain ⟨a, ha⟩ := List.exists_mem_of_ne_nil areas hne
  exact hnone (rank a.id) a ha rfl

lemma treeWalk_perm_core : ∀ (n : Nat) (areas : List Area) (rank : String → Nat),
    areas.length ≤ n → NodupIds areas →
    (∀ a ∈ areas, ∀ b ∈ areas, a.parentId = some b.id → rank b.id < rank a.id) →
    ∀ fuel, areas.length ≤ fuel →
    (treeWalkIds areas fuel).Perm (areas.map (fun a => a.id)) := by
  intro n
  induction n with
  | zero =>
    intro areas rank hlen hnd hrank fuel hfuel
    have : areas = [] := List.length_eq_zero.mp (Nat.le_zero.mp hlen)
    subst this
    unfold treeWalkIds
    rw [treeRoots_eq hnd]
    simp
  | succ m ih =>
    intro areas rank hlen hnd hrank fuel hfuel
    by_cases hempty : areas = []
    · subst hempty
      unfold treeWalkIds
      rw [treeRoots_eq hnd]
      simp
    · -- areas nonempty: roots nonempty, fuel ≥ 1
      have hroots_ne := roots_ne_nil rank hrank hempty
      have hlen_pos : 1 ≤ areas.length := by
        cases areas with
        | nil => exact absurd rfl hempty
        | cons a rest => simp
      obtain ⟨f, rfl⟩ : ∃ f, fuel = f + 1 := by
        cases fuel with
        | zero => omega
        | succ f => exact ⟨f, rfl⟩
      -- abbreviations
      have hndNR : NodupIds (nonRoots areas) := nodupIds_nonRoots hnd
      have hNRsub : ∀ a ∈ nonRoots areas, a ∈ areas := fun a ha => (List.mem_filter.mp ha).1
      -- length split
      have hsplit : (areas.filter (rootCond areas) ++ nonRoots areas).Perm areas := by
        unfold nonRoots
        exact List.filter_append_perm (rootCond areas) areas
      have hlen_split : (areas.filter (rootCond areas)).length + (nonRoots areas).length
          = areas.length := by
        have := hsplit.length_eq
        simpa using this
      have hroots_len : 1 ≤ (areas.filter (rootCond areas)).length := by
        cases h : areas.filter (rootCond areas) with
        | nil => exact absurd h hroots_ne
        | cons a rest => simp
      have hNR_len : (nonRoots areas).length ≤ m := by omega
      have hNR_fuel : (nonRoots areas).length ≤ f := by omega
      -- the walk at fuel f+1
      unfold treeWalkIds
      rw [treeRoots_eq hnd]
      -- unfold one level of walkIdsAux
      have hwalk1 : (areas.filter (rootCond areas)).flatMap (walkIdsAux areas (f + 1)) =
          (areas.filter (rootCond areas)).flatMap
            (fun r => r.id :: (treeChildren areas r.id).flatMap (walkIdsAux areas f)) := rfl
      rw [hwalk1]
      -- split heads from tails
      refine List.Perm.trans (List.map_append_flatMap_perm (areas.filter (rootCond areas))
        (fun r => r.id) (fun r => (treeChildren areas r.id).flatMap (walkIdsAux areas f))).symm ?_
      -- rewrite tails: collapse double flatMap
      rw [← List.flatMap_assoc]
      -- replace walkIdsAux areas by walkIdsAux (nonRoots areas) on members
      have hmemNR : ∀ x ∈ (areas.filter (rootCond areas)).flatMap
          (fun r => treeChildren areas r.id), x ∈ nonRoots areas := by
        intro x hx
        obtain ⟨r, hr, hxr⟩ := List.mem_flatMap.mp hx
        have hrmem := List.mem_filter.mp hr
        rw [treeChildren_eq hnd] at hxr
        exact children_subset_nonRoots hrmem.1 x hxr
      rw [flatMap_congr_mem (fun x hx => walkIdsAux_nonRoots_congr hnd f x (hmemNR x hx))]
      -- children flatMap is a permutation of the roots of nonRoots
      have hperm2 : ((areas.filter (rootCond areas)).flatMap
          (fun r => treeChildren areas r.id)).Perm
            ((nonRoots areas).filter (rootCond (nonRoots areas))) := by
        have := roots_flatMap_children_perm hnd
        refine List.Perm.trans ?_ this
        rw [flatMap_congr_mem]
        intro r _
        exact treeChildren_eq hnd r.id
      have hperm3 := hperm2.flatMap_right (walkIdsAux (nonRoots areas) f)
      -- use the induction hypothesis on nonRoots
      have hih := ih (nonRoots areas) rank hNR_len hndNR
        (fun a ha b hb hp => hrank a (hNRsub a ha) b (hNRsub b hb) hp) f hNR_fuel
      have hih2 : ((nonRoots areas).filter
          (rootCond (nonRoots areas))).flatMap (walkIdsAux (nonRoots areas) f)
            |>.Perm ((nonRoots areas).map (fun a => a.id)) := by
        have : treeWalkIds (nonRoots areas) f =
            ((nonRoots areas).filter (rootCond (nonRoots areas))).flatMap
              (walkIdsAux (nonRoots areas) f) := by
          unfold treeWalkIds
          rw [treeRoots_eq hndNR]
        rw [this] at hih
        exact hih
      refine List.Perm.trans (List.Perm.append_left _ (hperm3.trans hih2)) ?_
      -- roots ids ++ nonRoots ids ~ all ids
      have := hsplit.map (fun a => a.id)
      simpa using this

/-- C7 counterexample: on the two-area `parentId` cycle neither area ends
up reachable from the roots of `buildAreaTree` (each is pushed only into
the other's `children`), so the depth-first walk returns no ids at all —
both ids of the input are lost, refuting the claim for arbitrary flat
lists. -/
theorem C7_counterexample_cycle :
    (∀ fuel, treeWalkIds cycProject.areas fuel = []) ∧
    cycProject.areas.map (fun a => a.id) = ["a", "b"] := by
  constructor
  · intro fuel
    have h : treeRoots cycProject.areas = [] := by decide
    unfold treeWalkIds
    rw [h]
    rfl
  · rfl

/-- C7 (amended).  For a flat list with pairwise-distinct ids whose
`parentId` relation is acyclic (witnessed by a rank function that
decreases from child to parent), the depth-first walk of
`buildAreaTree`'s result is a permutation of the input id list — every id
exactly once, none lost, none duplicated — and every area whose
`parentId` matches no area id appears among the roots.  (On a cycle the
cycle's members are lost, see the counterexample.) -/
theorem C7_tree_flatten_consistency (areas : List Area) (rank : String → Nat)
    (hnd : NodupIds areas)
    (hrank : ∀ a ∈ areas, ∀ b ∈ areas, a.parentId = some b.id → rank b.id < rank a.id) :
    (∀ fuel, areas.length ≤ fuel →
      (treeWalkIds areas fuel).Perm (areas.map (fun a => a.id))) ∧
    (∀ a ∈ areas, ∀ p, a.parentId = some p → p ∉ areas.map (fun x => x.id) →
      a ∈ treeRoots areas) := by
  constructor
  · intro fuel hfuel
    exact treeWalk_perm_core areas.length areas rank (Nat.le_refl _) hnd hrank fuel hfuel
  · intro a ha p hp hnotin
    rw [treeRoots_eq hnd]
    refine List.mem_filter.mpr ⟨ha, ?_⟩
    unfold rootCond
    rw [hp]
    simp only [Bool.not_eq_true']
    rw [List.contains_eq_any_beq, List.any_eq_false]
    intro y hy
    simp only [beq_iff_eq]
    intro heq
    exact hnotin (heq ▸ hy)

/-- C7 witness: root + child + orphan, walked with budget 3. -/
theorem C7_tree_flatten_witness :
    (treeWalkIds orphanFixtureAreas 3).Perm
      (orphanFixtureAreas.map (fun a => a.id)) :=
  (C7_tree_flatten_consistency orphanFixtureAreas orphanFixtureRank
    (by unfold NodupIds; decide) (by decide)).1 3 (by decide)

lemma ofInt_pos (n : ℤ) : (Frac.ofInt n).Pos := by
  unfold Frac.ofInt Frac.Pos
  norm_num

lemma ofInt_val (n : ℤ) : (Frac.ofInt n).val = (n : ℚ) := by
  unfold Frac.ofInt Frac.val
  norm_num

lemma den_ne_zero {a : Frac} (ha : a.Pos) : ((a.den : ℚ)) ≠ 0 := by
  unfold Frac.Pos at ha
  exact_mod_cast ha.ne.symm

lemma den_cast_pos {a : Frac} (ha : a.Pos) : (0 : ℚ) < (a.den : ℚ) := by
  unfold Frac.Pos at ha
  exact_mod_cast ha

lemma fAdd_pos {a b : Frac} (ha : a.Pos) (hb : b.Pos) : (fAdd a b).Pos :=
  mul_pos ha hb

lemma fSub_pos {a b : Frac} (ha : a.Pos) (hb : b.Pos) : (fSub a b).Pos :=
  mul_pos ha hb

lemma fMul_pos {a b : Frac} (ha : a.Pos) (hb : b.Pos) : (fMul a b).Pos :=
  mul_pos ha hb

lemma fAbs_pos {a : Frac} (ha : a.Pos) : (fAbs a).Pos := by
  unfold fAbs
  split <;> exact ha

lemma val_fAdd {a b : Frac} (ha : a.Pos) (hb : b.Pos) :
    (fAdd a b).val = a.val + b.val := by
  unfold fAdd Frac.val
  have h1 := den_ne_zero ha
  have h2 := den_ne_zero hb
  push_cast
  field_simp

lemma val_fSub {a b : Frac} (ha : a.Pos) (hb : b.Pos) :
    (fSub a b).val = a.val - b.val := by
  unfold fSub Frac.val
  have h1 := den_ne_zero ha
  have h2 := den_ne_zero hb
  push_cast
  field_simp
  ring

lemma val_fMul {a b : Frac} (ha : a.Pos) (hb : b.Pos) :
    (fMul a b).val = a.val * b.val := by
  unfold fMul Frac.val
  have h1 := den_ne_zero ha
  have h2 := den_ne_zero hb
  push_cast
  field_simp

lemma val_fAbs {a : Frac} (ha : a.Pos) : (fAbs a).val = |a.val| := by
  unfold fAbs Frac.val
  rw [abs_div, abs_of_pos (den_cast_pos ha)]
  split
  · rename_i h
    rw [abs_of_neg (by exact_mod_cast h : ((a.num : ℚ)) < 0)]
    push_cast
    ring
  · rename_i h
    push_neg at h
    rw [abs_of_nonneg (by exact_mod_cast h : (0 : ℚ) ≤ (a.num : ℚ))]

lemma fDiv_pos {a b : Frac} (ha : a.Pos) (hb : b.num ≠ 0) : (fDiv a b).Pos := by
  unfold fDiv Frac.Pos at *
  split
  · rename_i h
    exact mul_pos ha (lt_of_le_of_ne h (Ne.symm hb))
  · rename_i h
    push_neg at h
    exact neg_pos.mpr (mul_neg_of_pos_of_neg ha h)

lemma val_fDiv {a b : Frac} (ha : a.Pos) (hb : b.Pos) (hbn : b.num ≠ 0) :
    (fDiv a b).val = a.val / b.val := by
  have h1 := den_ne_zero ha
  have h2 := den_ne_zero hb
  have h3 : ((b.num : ℚ)) ≠ 0 := by exact_mod_cast hbn
  unfold fDiv Frac.val
  split
  · push_cast
    field_simp
  · push_cast
    field_simp

lemma fLt_iff {a b : Frac} (ha : a.Pos) (hb : b.Pos) :
    fLt a b = true ↔ a.val < b.val := by
  unfold fLt Frac.val
  rw [decide_eq_true_eq, div_lt_div_iff₀ (den_cast_pos ha) (den_cast_pos hb)]
  constructor <;> intro h <;> exact_mod_cast h

lemma val_pos_of_num_pos {b : Frac} (hb : b.Pos) (hn : 0 < b.num) : 0 < b.val :=
  div_pos (by exact_mod_cast hn) (den_cast_pos hb)

lemma fFloor_eq_floor {q : Frac} (hq : q.Pos) : fFloor q = ⌊q.val⌋ := by
  have hden : (0 : ℚ) < (q.den : ℚ) := den_cast_pos hq
  have hk : q.den * (q.num.ediv q.den) + q.num.emod q.den = q.num :=
    Int.ediv_add_emod q.num q.den
  have hr0 : 0 ≤ q.num.emod q.den := Int.emod_nonneg q.num hq.ne'
  have hr1 : q.num.emod q.den < q.den := Int.emod_lt_of_pos q.num hq
  symm
  rw [Int.floor_eq_iff]
  unfold fFloor
  constructor
  · rw [Frac.val, le_div_iff₀ hden]
    have : q.num.ediv q.den * q.den ≤ q.num := by nlinarith
    exact_mod_cast this
  · rw [Frac.val, div_lt_iff₀ hden]
    have : q.num < (q.num.ediv q.den + 1) * q.den := by nlinarith
    exact_mod_cast this

lemma fMin_pos {a b : Frac} (ha : a.Pos) (hb : b.Pos) : (fMin a b).Pos := by
  unfold fMin
  split
  · exact ha
  · exact hb

lemma fListMin_pos {l : List Frac} (h : ∀ u ∈ l, u.Pos) : (fListMin l).Pos := by
  cases l with
  | nil => exact ofInt_pos 0
  | cons a t =>
    have step : ∀ (t' : List Frac) (acc : Frac), acc.Pos → (∀ u ∈ t', u.Pos) →
        (t'.foldl fMin acc).Pos := by
      intro t'
      induction t' with
      | nil => intro acc hacc _; exact hacc
      | cons b t'' ih =>
        intro acc hacc hall
        exact ih (fMin acc b) (fMin_pos hacc (hall b (by simp)))
          (fun u hu => hall u (by simp [hu]))
    exact step t a (h a (by simp)) (fun u hu => h u (by simp [hu]))

lemma hueDistance_pos {h1 h2 : Frac} (ha : h1.Pos) (hb : h2.Pos) :
    (hueDistance h1 h2).Pos :=
  fMin_pos (fAbs_pos (fSub_pos ha hb))
    (fSub_pos (ofInt_pos 360) (fAbs_pos (fSub_pos ha hb)))

lemma fListSum_pos {l : List Frac} (h : ∀ u ∈ l, u.Pos) : (fListSum l).Pos := by
  unfold fListSum
  have step : ∀ (t : List Frac) (acc : Frac), acc.Pos → (∀ u ∈ t, u.Pos) →
      (t.foldl fAdd acc).Pos := by
    intro t
    induction t with
    | nil => intro acc hacc _; exact hacc
    | cons b t' ih =>
      intro acc hacc hall
      exact ih (fAdd acc b) (fAdd_pos hacc (hall b (by simp)))
        (fun u hu => hall u (by simp [hu]))
  exact step l (Frac.ofInt 0) (ofInt_pos 0) h

lemma jsMod_pos {a b : Frac} (ha : a.Pos) (hb : b.Pos) : (jsMod a b).Pos :=
  fSub_pos ha (fMul_pos hb (ofInt_pos _))

lemma jsMod_bounds {a b : Frac} (ha : a.Pos) (hb : b.Pos) (hbn : 0 < b.num) :
    0 ≤ (jsMod a b).val ∧ (jsMod a b).val < b.val := by
  have hbval : 0 < b.val := val_pos_of_num_pos hb hbn
  have hdivpos : (fDiv a b).Pos := fDiv_pos ha hbn.ne'
  have hfl : fFloor (fDiv a b) = ⌊(fDiv a b).val⌋ := fFloor_eq_floor hdivpos
  have hdval : (fDiv a b).val = a.val / b.val := val_fDiv ha hb hbn.ne'
  unfold jsMod
  rw [val_fSub ha (fMul_pos hb (ofInt_pos _)), val_fMul hb (ofInt_pos _), ofInt_val,
    hfl, hdval]
  have hcancel : b.val * (a.val / b.val) = a.val := by field_simp
  constructor
  · have h1 : ((⌊a.val / b.val⌋ : ℚ)) ≤ a.val / b.val := Int.floor_le _
    nlinarith
  · have h1 : a.val / b.val < ((⌊a.val / b.val⌋ : ℚ)) + 1 := Int.lt_floor_add_one _
    nlinarith

lemma half_pos : (⟨1, 2⟩ : Frac).Pos := by
  unfold Frac.Pos
  norm_num

lemma half_val : (⟨1, 2⟩ : Frac).val = 1 / 2 := by
  unfold Frac.val
  norm_num

lemma jsRound_bounds (lo hi : ℤ) {q : Frac} (hq : q.Pos)
    (hlo : (lo : ℚ) ≤ q.val + 1 / 2) (hhi : q.val + 1 / 2 < (hi : ℚ)) :
    lo ≤ jsRound q ∧ jsRound q < hi := by
  unfold jsRound
  rw [fFloor_eq_floor (fAdd_pos hq half_pos), val_fAdd hq half_pos, half_val]
  exact ⟨Int.le_floor.mpr hlo, Int.floor_lt.mpr hhi⟩

lemma num255_ne : (Frac.ofInt 255).num ≠ 0 := by decide

lemma hexToHue_pos (s : String) : (hexToHue s).Pos := by
  simp only [hexToHue]
  have hr : (fDiv (Frac.ofInt ((hexPairVal s 1 : ℕ) : ℤ)) (Frac.ofInt 255)).Pos :=
    fDiv_pos (ofInt_pos _) num255_ne
  have hg : (fDiv (Frac.ofInt ((hexPairVal s 3 : ℕ) : ℤ)) (Frac.ofInt 255)).Pos :=
    fDiv_pos (ofInt_pos _) num255_ne
  have hb : (fDiv (Frac.ofInt ((hexPairVal s 5 : ℕ) : ℤ)) (Frac.ofInt 255)).Pos :=
    fDiv_pos (ofInt_pos _) num255_ne
  split
  · exact ofInt_pos 0
  · rename_i hne
    simp only [fEq, decide_eq_true_eq] at hne
    have hdnum : (fSub (fMax (fDiv (Frac.ofInt ((hexPairVal s 1 : ℕ) : ℤ)) (Frac.ofInt 255))
        (fMax (fDiv (Frac.ofInt ((hexPairVal s 3 : ℕ) : ℤ)) (Frac.ofInt 255))
          (fDiv (Frac.ofInt ((hexPairVal s 5 : ℕ) : ℤ)) (Frac.ofInt 255))))
        (fMin (fDiv (Frac.ofInt ((hexPairVal s 1 : ℕ) : ℤ)) (Frac.ofInt 255))
          (fMin (fDiv (Frac.ofInt ((hexPairVal s 3 : ℕ) : ℤ)) (Frac.ofInt 255))
            (fDiv (Frac.ofInt ((hexPairVal s 5 : ℕ) : ℤ)) (Frac.ofInt 255))))).num ≠ 0 :=
      sub_ne_zero.mpr hne
    split
    · refine fMul_pos (fAdd_pos (fDiv_pos (fSub_pos hg hb) hdnum) ?_) (ofInt_pos _)
      split
      · exact ofInt_pos 6
      · exact ofInt_pos 0
    · split
      · exact fMul_pos (fAdd_pos (fDiv_pos (fSub_pos hb hr) hdnum) (ofInt_pos 2)) (ofInt_pos _)
      · exact fMul_pos (fAdd_pos (fDiv_pos (fSub_pos hr hg) hdnum) (ofInt_pos 4)) (ofInt_pos _)

lemma hexDigitChar_hex : ∀ n, n < 16 → isHexDigit (hexDigitChar n) = true := by decide

lemma byteToHex_spec (v : ℤ) (h0 : 0 ≤ v) (hlt : v < 256) :
    (byteToHex v).data.length = 2 ∧ ∀ ch ∈ (byteToHex v).data, isHexDigit ch = true := by
  have hn : v.toNat < 256 := by omega
  simp only [byteToHex]
  split
  · rename_i h16
    refine ⟨rfl, ?_⟩
    intro ch hch
    have : ch = '0' ∨ ch = hexDigitChar v.toNat := by
      simpa [String.mk] using hch
    rcases this with rfl | rfl
    · decide
    · exact hexDigitChar_hex _ h16
  · rename_i h16
    refine ⟨rfl, ?_⟩
    intro ch hch
    have : ch = hexDigitChar (v.toNat / 16) ∨ ch = hexDigitChar (v.toNat % 16) := by
      simpa [String.mk] using hch
    rcases this with rfl | rfl
    · exact hexDigitChar_hex _ (by omega)
    · exact hexDigitChar_hex _ (by omega)

lemma validHexColor_parts (s1 s2 s3 : String)
    (l1 : s1.data.length = 2) (l2 : s2.data.length = 2) (l3 : s3.data.length = 2)
    (a1 : ∀ ch ∈ s1.data, isHexDigit ch = true)
    (a2 : ∀ ch ∈ s2.data, isHexDigit ch = true)
    (a3 : ∀ ch ∈ s3.data, isHexDigit ch = true) :
    validHexColor ("#" ++ s1 ++ s2 ++ s3) = true := by
  have hdata : ("#" ++ s1 ++ s2 ++ s3).data = '#' :: (s1.data ++ s2.data ++ s3.data) := by
    simp [String.data_append]
  unfold validHexColor
  rw [hdata]
  simp [List.length_append, l1, l2, l3, List.all_eq_true]
  exact ⟨a1, a2, a3⟩

lemma mfrac_pos : (⟨470000, 2000000⟩ : Frac).Pos := by
  unfold Frac.Pos
  norm_num

lemma mfrac_val : (⟨470000, 2000000⟩ : Frac).val = 47 / 200 := by
  unfold Frac.val
  norm_num

lemma channel_bounds {ch : Frac} (hch : ch.Pos) (h0 : 0 ≤ ch.val) (h63 : ch.val ≤ 63 / 100) :
    0 ≤ jsRound (fMul (fAdd ch ⟨470000, 2000000⟩) (Frac.ofInt 255)) ∧
    jsRound (fMul (fAdd ch ⟨470000, 2000000⟩) (Frac.ofInt 255)) < 256 := by
  have hq : (fMul (fAdd ch ⟨470000, 2000000⟩) (Frac.ofInt 255)).Pos :=
    fMul_pos (fAdd_pos hch mfrac_pos) (ofInt_pos _)
  have hval : (fMul (fAdd ch ⟨470000, 2000000⟩) (Frac.ofInt 255)).val =
      (ch.val + 47 / 200) * 255 := by
    rw [val_fMul (fAdd_pos hch mfrac_pos) (ofInt_pos _), val_fAdd hch mfrac_pos,
      mfrac_val, ofInt_val]
    norm_num
  refine jsRound_bounds 0 256 hq ?_ ?_
  · rw [hval]
    push_cast
    linarith
  · rw [hval]
    push_cast
    linarith

lemma hsl_assemble (m c1 c2 c3 : Frac)
    (h1 : 0 ≤ jsRound (fMul (fAdd c1 m) (Frac.ofInt 255)) ∧
      jsRound (fMul (fAdd c1 m) (Frac.ofInt 255)) < 256)
    (h2 : 0 ≤ jsRound (fMul (fAdd c2 m) (Frac.ofInt 255)) ∧
      jsRound (fMul (fAdd c2 m) (Frac.ofInt 255)) < 256)
    (h3 : 0 ≤ jsRound (fMul (fAdd c3 m) (Frac.ofInt 255)) ∧
      jsRound (fMul (fAdd c3 m) (Frac.ofInt 255)) < 256) :
    validHexColor ("#" ++ byteToHex (jsRound (fMul (fAdd c1 m) (Frac.ofInt 255)))
      ++ byteToHex (jsRound (fMul (fAdd c2 m) (Frac.ofInt 255)))
      ++ byteToHex (jsRound (fMul (fAdd c3 m) (Frac.ofInt 255)))) = true := by
  obtain ⟨d1, e1⟩ := byteToHex_spec _ h1.1 h1.2
  obtain ⟨d2, e2⟩ := byteToHex_spec _ h2.1 h2.2
  obtain ⟨d3, e3⟩ := byteToHex_spec _ h3.1 h3.2
  exact validHexColor_parts _ _ _ d1 d2 d3 e1 e2 e3

lemma c6300_pos : (⟨6300, 10000⟩ : Frac).Pos := by
  unfold Frac.Pos
  norm_num

lemma c6300_val : (⟨6300, 10000⟩ : Frac).val = 63 / 100 := by
  unfold Frac.val
  norm_num

lemma hslToHex_70_55_valid (h : Frac) (hp : h.Pos) :
    validHexColor (hslToHex h (Frac.ofInt 70) (Frac.ofInt 55)) = true := by
  simp only [hslToHex]
  have hceq : fMul (fSub (Frac.ofInt 1)
      (fAbs (fSub (fMul (Frac.ofInt 2) (fDiv (Frac.ofInt 55) (Frac.ofInt 100))) (Frac.ofInt 1))))
      (fDiv (Frac.ofInt 70) (Frac.ofInt 100)) = (⟨6300, 10000⟩ : Frac) := by decide
  rw [hceq]
  have hmeq : fSub (fDiv (Frac.ofInt 55) (Frac.ofInt 100))
      (fDiv (⟨6300, 10000⟩ : Frac) (Frac.ofInt 2)) = (⟨470000, 2000000⟩ : Frac) := by decide
  rw [hmeq]
  have hwaPos : (fDiv h (Frac.ofInt 60)).Pos := fDiv_pos hp (by decide)
  have hwPos : (jsMod (fDiv h (Frac.ofInt 60)) (Frac.ofInt 2)).Pos :=
    jsMod_pos hwaPos (ofInt_pos 2)
  have hwb := jsMod_bounds hwaPos (ofInt_pos 2) (by decide)
  have hw2 : (jsMod (fDiv h (Frac.ofInt 60)) (Frac.ofInt 2)).val < 2 := by
    have := hwb.2
    rw [ofInt_val] at this
    exact_mod_cast this
  have htPos : (fSub (Frac.ofInt 1)
      (fAbs (fSub (jsMod (fDiv h (Frac.ofInt 60)) (Frac.ofInt 2)) (Frac.ofInt 1)))).Pos :=
    fSub_pos (ofInt_pos 1) (fAbs_pos (fSub_pos hwPos (ofInt_pos 1)))
  have htval : (fSub (Frac.ofInt 1)
      (fAbs (fSub (jsMod (fDiv h (Frac.ofInt 60)) (Frac.ofInt 2)) (Frac.ofInt 1)))).val =
      1 - |(jsMod (fDiv h (Frac.ofInt 60)) (Frac.ofInt 2)).val - 1| := by
    rw [val_fSub (ofInt_pos 1) (fAbs_pos (fSub_pos hwPos (ofInt_pos 1))),
      val_fAbs (fSub_pos hwPos (ofInt_pos 1)), val_fSub hwPos (ofInt_pos 1), ofInt_val]
    push_cast
    ring
  have htub : (fSub (Frac.ofInt 1)
      (fAbs (fSub (jsMod (fDiv h (Frac.ofInt 60)) (Frac.ofInt 2)) (Frac.ofInt 1)))).val ≤ 1 := by
    rw [htval]
    have := abs_nonneg ((jsMod (fDiv h (Frac.ofInt 60)) (Frac.ofInt 2)).val - 1)
    linarith
  have htlb : 0 ≤ (fSub (Frac.ofInt 1)
      (fAbs (fSub (jsMod (fDiv h (Frac.ofInt 60)) (Frac.ofInt 2)) (Frac.ofInt 1)))).val := by
    rw [htval]
    have habs : |(jsMod (fDiv h (Frac.ofInt 60)) (Frac.ofInt 2)).val - 1| ≤ 1 :=
      abs_le.mpr ⟨by linarith [hwb.1], by linarith⟩
    linarith
  have hxPos : (fMul (⟨6300, 10000⟩ : Frac) (fSub (Frac.ofInt 1)
      (fAbs (fSub (jsMod (fDiv h (Frac.ofInt 60)) (Frac.ofInt 2)) (Frac.ofInt 1))))).Pos :=
    fMul_pos c6300_pos htPos
  have hxval : (fMul (⟨6300, 10000⟩ : Frac) (fSub (Frac.ofInt 1)
      (fAbs (fSub (jsMod (fDiv h (Frac.ofInt 60)) (Frac.ofInt 2)) (Frac.ofInt 1))))).val =
      63 / 100 * (fSub (Frac.ofInt 1)
      (fAbs (fSub (jsMod (fDiv h (Frac.ofInt 60)) (Frac.ofInt 2)) (Frac.ofInt 1)))).val := by
    rw [val_fMul c6300_pos htPos, c6300_val]
  have hcCH := channel_bounds c6300_pos (by rw [c6300_val]; norm_num) (by rw [c6300_val])
  have hxCH := channel_bounds hxPos
    (by rw [hxval]; nlinarith) (by rw [hxval]; nlinarith)
  have hzCH := channel_bounds (ofInt_pos 0)
    (by rw [ofInt_val]; norm_num) (by rw [ofInt_val]; norm_num)
  by_cases h60 : fLt h (Frac.ofInt 60) = true
  · rw [if_pos h60]
    exact hsl_assemble _ _ _ _ hcCH hxCH hzCH
  · rw [if_neg h60]
    by_cases h120 : fLt h (Frac.ofInt 120) = true
    · rw [if_pos h120]
      exact hsl_assemble _ _ _ _ hxCH hcCH hzCH
    · rw [if_neg h120]
      by_cases h180 : fLt h (Frac.ofInt 180) = true
      · rw [if_pos h180]
        exact hsl_assemble _ _ _ _ hzCH hcCH hxCH
      · rw [if_neg h180]
        by_cases h240 : fLt h (Frac.ofInt 240) = true
        · rw [if_pos h240]
          exact hsl_assemble _ _ _ _ hzCH hxCH hcCH
        · rw [if_neg h240]
          by_cases h300 : fLt h (Frac.ofInt 300) = true
          · rw [if_pos h300]
            exact hsl_assemble _ _ _ _ hxCH hzCH hcCH
          · rw [if_neg h300]
            exact hsl_assemble _ _ _ _ hcCH hzCH hxCH

lemma contains_false_of_not_mem {l : List String} {a : String} (h : a ∉ l) :
    l.contains a = false := by
  simpa using h

lemma not_mem_of_contains_false {l : List String} {a : String} (h : l.contains a = false) :
    a ∉ l := by
  simpa using h

/-- Throughout the allocator loop, once the best-so-far distance is strictly
positive the best-so-far color is unused (a replacement only installs a color
that passed the used-colors check). -/
lemma nextColor_fold_inv (used : List String) (hues : List Frac) :
    ∀ (cs : List String) (best : String × Frac),
      (0 < best.2.val → best.1 ∉ used) →
      (0 < (cs.foldl (nextColorStep used hues) best).2.val →
        (cs.foldl (nextColorStep used hues) best).1 ∉ used) := by
  intro cs
  induction cs with
  | nil => intro best hinv; exact hinv
  | cons c cs ih =>
    intro best hinv
    rw [List.foldl_cons]
    apply ih
    simp only [nextColorStep]
    split
    · exact hinv
    · rename_i hcont
      split
      · intro _
        exact not_mem_of_contains_false (Bool.not_eq_true _ ▸ (by simpa using hcont))
      · exact hinv

/-- Throughout the allocator loop, the best-so-far distance stays
well-formed and never decreases. -/
lemma nextColor_fold_mono (used : List String) (hues : List Frac)
    (hh : ∀ u ∈ hues, u.Pos) :
    ∀ (cs : List String) (best : String × Frac), best.2.Pos →
      (cs.foldl (nextColorStep used hues) best).2.Pos ∧
      best.2.val ≤ (cs.foldl (nextColorStep used hues) best).2.val := by
  intro cs
  induction cs with
  | nil => intro best hb; exact ⟨hb, le_refl _⟩
  | cons c cs ih =>
    intro best hb
    rw [List.foldl_cons]
    have hdp : (fListMin (hues.map (fun u => hueDistance (hexToHue c) u))).Pos := by
      apply fListMin_pos
      intro u hu
      obtain ⟨u', hu', rfl⟩ := List.mem_map.mp hu
      exact hueDistance_pos (hexToHue_pos c) (hh u' hu')
    simp only [nextColorStep]
    split
    · exact ih best hb
    · split
      · rename_i hlt
        obtain ⟨hp, hle⟩ := ih (c, fListMin (hues.map (fun u => hueDistance (hexToHue c) u))) hdp
        refine ⟨hp, le_trans (le_of_lt ?_) hle⟩
        exact (fLt_iff hb hdp).mp hlt
      · exact ih best hb

/-- If some color of the loop's list is unused and has strictly positive
minimum hue distance to the used hues, the final best-so-far distance is
strictly positive. -/
lemma nextColor_fold_reaches (used : List String) (hues : List Frac)
    (hh : ∀ u ∈ hues, u.Pos) :
    ∀ (cs : List String) (best : String × Frac), best.2.Pos →
      ∀ c ∈ cs, c ∉ used →
      0 < (fListMin (hues.map (fun u => hueDistance (hexToHue c) u))).val →
      0 < (cs.foldl (nextColorStep used hues) best).2.val := by
  intro cs
  induction cs with
  | nil => intro best hb c hc; exact absurd hc (List.not_mem_nil c)
  | cons c' cs ih =>
    intro best hb c hc hcnot hcpos
    rw [List.foldl_cons]
    have hdp' : ∀ col : String,
        (fListMin (hues.map (fun u => hueDistance (hexToHue col) u))).Pos := by
      intro col
      apply fListMin_pos
      intro u hu
      obtain ⟨u', hu', rfl⟩ := List.mem_map.mp hu
      exact hueDistance_pos (hexToHue_pos col) (hh u' hu')
    have hstepPos : (nextColorStep used hues best c').2.Pos := by
      simp only [nextColorStep]
      split
      · exact hb
      · split
        · exact hdp' c'
        · exact hb
    rcases List.mem_cons.mp hc with rfl | hmem
    · have hcont : used.contains c = false := contains_false_of_not_mem hcnot
      have hstep : 0 < (nextColorStep used hues best c).2.val := by
        simp only [nextColorStep]
        rw [hcont]
        simp only [Bool.false_eq_true, if_false]
        split
        · exact hcpos
        · rename_i hnlt
          have : ¬ best.2.val < (fListMin (hues.map (fun u => hueDistance (hexToHue c) u))).val := by
            intro hvl
            exact hnlt ((fLt_iff hb (hdp' c)).mpr hvl)
          calc (0 : ℚ) < (fListMin (hues.map (fun u => hueDistance (hexToHue c) u))).val := hcpos
            _ ≤ best.2.val := not_lt.mp this
      calc (0 : ℚ) < (nextColorStep used hues best c).2.val := hstep
        _ ≤ _ := (nextColor_fold_mono used hues hh cs _ hstepPos).2
    · exact ih (nextColorStep used hues best c') hstepPos c hmem hcnot hcpos

/-- The allocator loop's result color is the initial color or a member of
the scanned list. -/
lemma nextColor_fold_mem (used : List String) (hues : List Frac) :
    ∀ (cs : List String) (best : String × Frac),
      (cs.foldl (nextColorStep used hues) best).1 = best.1 ∨
      (cs.foldl (nextColorStep used hues) best).1 ∈ cs := by
  intro cs
  induction cs with
  | nil => intro best; exact Or.inl rfl
  | cons c cs ih =>
    intro best
    rw [List.foldl_cons]
    rcases ih (nextColorStep used hues best c) with heq | hmem
    · rw [heq]
      simp only [nextColorStep]
      split
      · exact Or.inl rfl
      · split
        · exact Or.inr (List.mem_cons_self c cs)
        · exact Or.inl rfl
    · exact Or.inr (List.mem_cons_of_mem c hmem)

lemma palette_valid : ∀ c ∈ POLYGON_PALETTE, validHexColor c = true := by decide

lemma palette_head_valid : validHexColor POLYGON_PALETTE[0]! = true := by decide

/-- C9 (amended).  `getNextAvailableColor` always returns a valid 6-digit
hex color, and it returns a color not in the used list *provided* some
unused palette color's minimum hue distance to the used hues is strictly
positive; an unused palette color whose hue exactly coincides with a used
hue does not beat the initial best-distance 0, so without that proviso the
loop can fall through to synthesis and return an already-used color (see
the counterexample). -/
theorem C9_color_allocator (usedColors : List String) :
    validHexColor (getNextAvailableColor usedColors) = true ∧
    (∀ c, c ∈ POLYGON_PALETTE → c ∉ usedColors →
      fLt (Frac.ofInt 0) (fListMin ((usedColors.map hexToHue).map
        (fun u => hueDistance (hexToHue c) u))) = true →
      getNextAvailableColor usedColors ∉ usedColors) := by
  by_cases hemp : usedColors = []
  · subst hemp
    refine ⟨?_, ?_⟩
    · simp only [getNextAvailableColor, if_pos rfl]
      exact palette_head_valid
    · intro c _ _ _
      simp only [getNextAvailableColor, if_pos rfl]
      exact List.not_mem_nil _
  · have hPos : ∀ u ∈ usedColors.map hexToHue, u.Pos := by
      intro u hu
      obtain ⟨s, _, rfl⟩ := List.mem_map.mp hu
      exact hexToHue_pos s
    simp only [getNextAvailableColor, if_neg hemp]
    by_cases hcont : usedColors.contains (POLYGON_PALETTE.foldl
        (nextColorStep usedColors (usedColors.map hexToHue))
        (POLYGON_PALETTE[0]!, Frac.ofInt 0)).1 = true
    · rw [if_pos hcont]
      have hlen : (Frac.ofInt (usedColors.length : ℤ)).num ≠ 0 := by
        have h1 : 0 < usedColors.length := List.length_pos.mpr hemp
        show ((usedColors.length : ℤ)) ≠ 0
        exact_mod_cast Nat.pos_iff_ne_zero.mp h1
      refine ⟨?_, ?_⟩
      · exact hslToHex_70_55_valid _
          (jsMod_pos (fAdd_pos (fDiv_pos (fListSum_pos hPos) hlen) (ofInt_pos 180))
            (ofInt_pos 360))
      · intro c hcpal hcnot hflt
        exfalso
        have hdp : (fListMin ((usedColors.map hexToHue).map
            (fun u => hueDistance (hexToHue c) u))).Pos := by
          apply fListMin_pos
          intro u hu
          obtain ⟨u', hu', rfl⟩ := List.mem_map.mp hu
          exact hueDistance_pos (hexToHue_pos c) (hPos u' hu')
        have hval : 0 < (fListMin ((usedColors.map hexToHue).map
            (fun u => hueDistance (hexToHue c) u))).val := by
          have h1 := (fLt_iff (ofInt_pos 0) hdp).mp hflt
          rw [ofInt_val] at h1
          exact_mod_cast h1
        have hfinal : 0 < (POLYGON_PALETTE.foldl
            (nextColorStep usedColors (usedColors.map hexToHue))
            (POLYGON_PALETTE[0]!, Frac.ofInt 0)).2.val :=
          nextColor_fold_reaches usedColors (usedColors.map hexToHue) hPos
            POLYGON_PALETTE (POLYGON_PALETTE[0]!, Frac.ofInt 0) (ofInt_pos 0)
            c hcpal hcnot hval
        have hnm := nextColor_fold_inv usedColors (usedColors.map hexToHue)
          POLYGON_PALETTE (POLYGON_PALETTE[0]!, Frac.ofInt 0)
          (fun hv => absurd hv (by rw [ofInt_val]; norm_num)) hfinal
        exact hnm (by simpa using hcont)
    · rw [if_neg hcont]
      have hnm : (POLYGON_PALETTE.foldl
          (nextColorStep usedColors (usedColors.map hexToHue))
          (POLYGON_PALETTE[0]!, Frac.ofInt 0)).1 ∉ usedColors := by
        simpa using hcont
      refine ⟨?_, ?_⟩
      · rcases nextColor_fold_mem usedColors (usedColors.map hexToHue)
          POLYGON_PALETTE (POLYGON_PALETTE[0]!, Frac.ofInt 0) with heq | hm
        · rw [heq]
          exact palette_head_valid
        · exact palette_valid _ hm
      · intro c _ _ _
        exact hnm

/-- C9 counterexample: with the 15 valid used colors of
`blockedUsedColors`, the palette is *not* exhausted — `"#ddc23c"` is an
unused palette color — yet the allocator returns `"#dd8c3c"`, a color
already present in the used list: the unused palette color's hue is
exactly blocked by the used color `"#a18600"`, the strict-improvement
comparison never fires, and the synthesized mean-hue color collides with a
used one. -/
theorem C9_counterexample_color_reuse :
    ("#ddc23c" ∈ POLYGON_PALETTE ∧ "#ddc23c" ∉ blockedUsedColors) ∧
    getNextAvailableColor blockedUsedColors ∈ blockedUsedColors := by decide

theorem C9_color_allocator_witness :
    validHexColor (getNextAvailableColor ["#f97316"]) = true ∧
    getNextAvailableColor ["#f97316"] ∉ ["#f97316"] :=
  ⟨(C9_color_allocator ["#f97316"]).1,
   (C9_color_allocator ["#f97316"]).2 "#3c9add" (by decide) (by decide) (by decide)⟩

end AreaModel
